import Mathlib

/-!
Verification of the app-hound scanning and removal engine.

This file gives a shallow embedding of the core data model and operations of
the repository (src/app_hound/domain.py, removal.py, scanner.py) and proves
properties about them.  Filesystem paths are modelled as plain strings (POSIX
joins `a / b` become `a ++ "/" ++ b`), timestamps as integers, and the
filesystem itself as an explicit record of pure query functions (mirroring the
injected `Filesystem` protocol of scanner.py).  Fallible operations return
`Except`/`Option` values.
-/

namespace AppHound

/-! ## Python string helpers used by the source -/

/-- The single-quote character (written via its code point to keep source text
plain). -/
def sq : Char := Char.ofNat 39

/-- The double-quote character. -/
def dq : Char := Char.ofNat 34

/-- Python `str.lower()` for the ASCII range (the source only lower-cases
application names; on ASCII letters `Char.toLower` agrees with Python). -/
def pyLower (s : String) : String := ⟨s.data.map Char.toLower⟩

/-- Python `str.strip()`: remove leading and trailing whitespace. -/
def pyStrip (s : String) : String :=
  ⟨((s.data.dropWhile Char.isWhitespace).reverse.dropWhile Char.isWhitespace).reverse⟩

/-- Python `str.endswith(suffix)`. -/
def pyEndsWith (s suffix : String) : Bool := suffix.data.isSuffixOf s.data

/-- Python `str.startswith(pre)` (character-list based so that it computes by
structural recursion). -/
def pyStartsWith (s pre : String) : Bool := pre.data.isPrefixOf s.data

/-! ## Domain enumerations and records (domain.py) -/

/-- The `ArtifactKind` of domain.py: FILE / DIRECTORY / SYMLINK / UNKNOWN. -/
inductive ArtifactKind where
  | file | directory | symlink | unknown
  deriving DecidableEq, Repr

/-- The `ArtifactScope` of domain.py: DEFAULT / CONFIGURED / DISCOVERED / SYSTEM /
UNKNOWN (DEFAULT is rendered `default_` to avoid clashing with Lean's
`Inhabited.default`). -/
inductive ArtifactScope where
  | default_ | configured | discovered | system | unknown
  deriving DecidableEq, Repr

/-- The `ArtifactCategory` of domain.py. -/
inductive ArtifactCategory where
  | application | support | cache | preferences | logs | launchAgent | other
  deriving DecidableEq, Repr

/-- The `RemovalSafety` of domain.py: SAFE / CAUTION / REVIEW. -/
inductive RemovalSafety where
  | safe | caution | review
  deriving DecidableEq, Repr

/-- The `Artifact` of domain.py.  `exists` is a Lean keyword, hence the field name
`exists_`.  `size_bytes` and timestamps are integers. -/
structure Artifact where
  app_name : String
  path : String
  kind : ArtifactKind := ArtifactKind.unknown
  scope : ArtifactScope := ArtifactScope.unknown
  category : ArtifactCategory := ArtifactCategory.other
  removal_safety : RemovalSafety := RemovalSafety.review
  exists_ : Bool := true
  writable : Option Bool := none
  size_bytes : Option Int := none
  last_modified : Option Int := none
  notes : List String := []
  removal_instructions : List String := []
  deriving DecidableEq, Repr

/-- The `ScanResult` of domain.py (`generated_at` is supplied by the caller of
`scan` rather than a wall clock). -/
structure ScanResult where
  app_name : String
  artifacts : List Artifact := []
  generated_at : Int := 0
  errors : List String := []
  deriving DecidableEq, Repr

/-! ## Removal planning (removal.py) -/

/-- The `PlanEntry` of removal.py (fields in source order). -/
structure PlanEntry where
  app_name : String
  path : String
  kind : ArtifactKind
  category : ArtifactCategory
  scope : ArtifactScope
  exists_ : Bool
  writable : Option Bool
  removal_safety : RemovalSafety
  notes : List String := []
  removal_instructions : List String := []
  enabled : Bool := false
  deriving DecidableEq, Repr

/-- Character class of `shlex._find_unsafe` (ASCII): the characters that
`shlex.quote` leaves unquoted, i.e. ASCII letters, digits, and the nine
punctuation characters underscore, at, percent, plus, equals, colon, comma,
dot, slash, hyphen. -/
def shlexSafeChar (c : Char) : Bool :=
  c.isAlphanum || c = '_' || c = '@' || c = '%' || c = '+' || c = '=' ||
    c = ':' || c = ',' || c = '.' || c = '/' || c = '-'

/-- One character of the quoted body: `shlex.quote` replaces each single quote
by the five-character sequence sq dq sq dq sq, which closes the quoted run,
emits a double-quoted single quote, and reopens the quoted run. -/
def shlexEscChar (c : Char) : List Char :=
  if c = sq then [sq, dq, sq, dq, sq] else [c]

/-- The `shell_quote` of removal.py, which delegates to `shlex.quote`: the empty
string becomes two single quotes; a string of safe characters is returned
unchanged; anything else is wrapped in single quotes with embedded single
quotes escaped. -/
def shell_quote (s : String) : String :=
  if s = "" then ⟨[sq, sq]⟩
  else if s.data.all shlexSafeChar then s
  else ⟨sq :: (s.data.map shlexEscChar).flatten ++ [sq]⟩

/-- The `PlanEntry.suggested_command` of removal.py: `rm -rf` for directories,
`rm -f` otherwise (unknown kinds are treated as files). -/
def PlanEntry.suggested_command (e : PlanEntry) : String :=
  let quoted := shell_quote e.path
  if e.kind = ArtifactKind.directory then "rm -rf " ++ quoted
  else "rm -f " ++ quoted

/-- The `DeletionPlan` of removal.py. -/
structure DeletionPlan where
  generated_at : Int
  entries : List PlanEntry := []
  deriving DecidableEq, Repr

/-- The `PlanEntry(...)` construction inside `DeletionPlan.from_scan_results`
(removal.py lines 127-139): copy the artifact's metadata and attach the
computed `enabled` flag. -/
def planEntryOfArtifact (a : Artifact) (enabled : Bool) : PlanEntry :=
  { app_name := a.app_name
    path := a.path
    kind := a.kind
    category := a.category
    scope := a.scope
    exists_ := a.exists_
    writable := a.writable
    removal_safety := a.removal_safety
    notes := a.notes
    removal_instructions := a.removal_instructions
    enabled := enabled }

/-- The `_default_enable_policy` of removal.py: disable anything that does not
exist, otherwise enable exactly the SAFE artifacts. -/
def _default_enable_policy (a : Artifact) : Bool :=
  if !a.exists_ then false
  else decide (a.removal_safety = RemovalSafety.safe)

/-- The `DeletionPlan.from_scan_results` of removal.py.  The wall clock is passed
in as `now`; the defensive `try/except` around a caller-supplied policy cannot
fail in the pure model, so a supplied policy is applied directly. -/
def DeletionPlan.from_scan_results (results : List ScanResult)
    (enable_policy : Option (Artifact → Bool)) (now : Int) : DeletionPlan :=
  { generated_at := now
    entries := results.flatMap fun result =>
      result.artifacts.map fun artifact =>
        let enabled := match enable_policy with
          | none => _default_enable_policy artifact
          | some p => p artifact
        planEntryOfArtifact artifact enabled }

/-- The `RemovalReport` of removal.py. -/
structure RemovalReport where
  succeeded : List PlanEntry
  failed : List (PlanEntry × String)
  skipped : List PlanEntry
  deriving DecidableEq, Repr

/-- The membership test `response in ("y", "yes")` applied to
`input(...).strip().lower()` in `ArtifactRemover.remove`. -/
def confirmAnswer (response : String) : Bool :=
  let r := pyLower (pyStrip response)
  r == "y" || r == "yes"

/-- The loop body of `ArtifactRemover.remove` (removal.py lines 199-229),
with explicit accumulators.  Effects are passed in as oracles:
`attempt e` models `self._python_remove(entry)` (returning the formatted
exception message on failure) and `promptInput n` models the `n`-th call to
`input(...)`.  A failure under `stop_on_error` returns immediately (the
`break`), leaving later entries unprocessed. -/
def ArtifactRemover.removeGo (attempt : PlanEntry → Except String Unit)
    (promptInput : Nat → String) (dry_run prompt force stop_on_error : Bool) :
    List PlanEntry → Nat → List PlanEntry → List (PlanEntry × String) →
      List PlanEntry → RemovalReport
  | [], _, succeeded, failed, skipped => ⟨succeeded, failed, skipped⟩
  | e :: rest, pc, succeeded, failed, skipped =>
    let should_attempt := (e.enabled || force) && e.exists_
    if !should_attempt then
      ArtifactRemover.removeGo attempt promptInput dry_run prompt force stop_on_error
        rest pc succeeded failed (skipped ++ [e])
    else if prompt && !confirmAnswer (promptInput pc) then
      ArtifactRemover.removeGo attempt promptInput dry_run prompt force stop_on_error
        rest (pc + 1) succeeded failed (skipped ++ [e])
    else
      let pc' := if prompt then pc + 1 else pc
      if dry_run then
        ArtifactRemover.removeGo attempt promptInput dry_run prompt force stop_on_error
          rest pc' (succeeded ++ [e]) failed skipped
      else
        match attempt e with
        | Except.ok _ =>
          ArtifactRemover.removeGo attempt promptInput dry_run prompt force stop_on_error
            rest pc' (succeeded ++ [e]) failed skipped
        | Except.error msg =>
          if stop_on_error then ⟨succeeded, failed ++ [(e, msg)], skipped⟩
          else
            ArtifactRemover.removeGo attempt promptInput dry_run prompt force stop_on_error
              rest pc' succeeded (failed ++ [(e, msg)]) skipped

/-- The `ArtifactRemover.remove` of removal.py. -/
def ArtifactRemover.remove (attempt : PlanEntry → Except String Unit)
    (promptInput : Nat → String) (entries : List PlanEntry)
    (dry_run prompt force stop_on_error : Bool) : RemovalReport :=
  ArtifactRemover.removeGo attempt promptInput dry_run prompt force stop_on_error
    entries 0 [] [] []

/-! ## Theorems: deletion planning (C1) and dry-run removal (C10) -/

theorem planEntryOfArtifact_enabled (a : Artifact) (b : Bool) :
    (planEntryOfArtifact a b).enabled = b := rfl

/-- C1: with no caller-supplied enable policy, `DeletionPlan.from_scan_results`
marks a plan entry enabled iff the source artifact exists and its removal
safety is exactly `safe`; and for any artifact, the default policy evaluates
to the `exists` flag once the safety is set to `safe`, and to `false` once it
is set to `caution` — so an existing artifact flips from enabled to disabled
when its safety moves from `safe` to `caution`. -/
theorem c1_default_enable_policy (results : List ScanResult) (now : Int)
    (a : Artifact) :
    ((DeletionPlan.from_scan_results results none now).entries.all
        (fun e => e.enabled == (e.exists_ && decide (e.removal_safety = RemovalSafety.safe)))
      = true)
    ∧ _default_enable_policy { a with removal_safety := RemovalSafety.safe } = a.exists_
    ∧ _default_enable_policy { a with removal_safety := RemovalSafety.caution } = false := by
  refine ⟨?_, ?_, ?_⟩
  · rw [List.all_eq_true]
    intro e he
    simp only [DeletionPlan.from_scan_results, List.mem_flatMap, List.mem_map] at he
    obtain ⟨r, _, art, _, rfl⟩ := he
    simp only [planEntryOfArtifact, _default_enable_policy]
    cases h : art.exists_ <;> simp
  · simp only [_default_enable_policy]
    cases h : a.exists_ <;> simp
  · simp only [_default_enable_policy]
    cases h : a.exists_ <;> simp

/-- The dry-run/no-prompt instance of the removal loop: every attemptable
entry is reported as succeeded, everything else as skipped, and nothing can
fail. -/
theorem removeGo_dry_run (attempt : PlanEntry → Except String Unit)
    (promptInput : Nat → String) (force stop_on_error : Bool)
    (l : List PlanEntry) (pc : Nat) (succeeded : List PlanEntry)
    (failed : List (PlanEntry × String)) (skipped : List PlanEntry) :
    ArtifactRemover.removeGo attempt promptInput true false force stop_on_error
        l pc succeeded failed skipped
      = ⟨succeeded ++ l.filter (fun e => (e.enabled || force) && e.exists_),
         failed,
         skipped ++ l.filter (fun e => !((e.enabled || force) && e.exists_))⟩ := by
  induction l generalizing pc succeeded failed skipped with
  | nil => simp [ArtifactRemover.removeGo]
  | cons e rest ih =>
    by_cases h : ((e.enabled || force) && e.exists_) = true
    · have h' : (!((e.enabled || force) && e.exists_)) = false := by rw [h]; rfl
      have hne : ¬(e.enabled = false ∧ force = false ∨ e.exists_ = false) := by
        revert h
        cases e.enabled <;> cases force <;> cases e.exists_ <;> simp
      simp [ArtifactRemover.removeGo, h, h', ih, List.filter_cons, hne]
    · have h1 : ((e.enabled || force) && e.exists_) = false :=
        Bool.eq_false_iff.mpr h
      have h' : (!((e.enabled || force) && e.exists_)) = true := by rw [h1]; rfl
      have hor : e.enabled = false ∧ force = false ∨ e.exists_ = false := by
        revert h1
        cases e.enabled <;> cases force <;> cases e.exists_ <;> simp
      simp [ArtifactRemover.removeGo, h1, h', ih, List.filter_cons, hor]

/-! ## A miniature POSIX shell lexer, used to state the quoting property -/

/-- Lexer mode: outside quotes, inside single quotes, inside double quotes. -/
inductive ShMode where
  | norm | single | double
  deriving DecidableEq, Repr

/-- Word-splitting lexer for the fragment of POSIX shell syntax that
`shlex.quote` output exercises: words are split on spaces, single-quoted runs
are literal until the closing quote, double-quoted runs are literal until the
closing double quote (the quoted strings produced here contain no escape
sequences or expansion characters).  `cur` is the word being accumulated and
`started` records whether the current word has begun (so that adjacent quotes
extend one word and an empty quoted string still yields a word).  Returns
`none` on an unterminated quote. -/
def shLex : ShMode → List Char → List Char → Bool → Option (List (List Char))
  | ShMode.norm, [], cur, started => some (if started then [cur] else [])
  | ShMode.single, [], _, _ => none
  | ShMode.double, [], _, _ => none
  | ShMode.norm, c :: rest, cur, started =>
    if c = ' ' then
      if started then (shLex ShMode.norm rest [] false).map (fun ws => cur :: ws)
      else shLex ShMode.norm rest [] false
    else if c = sq then shLex ShMode.single rest cur true
    else if c = dq then shLex ShMode.double rest cur true
    else shLex ShMode.norm rest (cur ++ [c]) true
  | ShMode.single, c :: rest, cur, started =>
    if c = sq then shLex ShMode.norm rest cur started
    else shLex ShMode.single rest (cur ++ [c]) started
  | ShMode.double, c :: rest, cur, started =>
    if c = dq then shLex ShMode.norm rest cur started
    else shLex ShMode.double rest (cur ++ [c]) started

/-- Split a string into shell words. -/
def shWords (s : String) : Option (List String) :=
  (shLex ShMode.norm s.data [] false).map (List.map (fun w => (⟨w⟩ : String)))

/-- C10: calling `ArtifactRemover.remove` with `dry_run=true` and
`prompt=false` performs no removal operation (the report is the same for every
removal oracle `attempt`): the failed list is empty, the succeeded list holds
exactly the entries with `(enabled OR force) AND exists`, and the skipped list
holds all remaining entries, in order. -/
theorem c10_dry_run_report (attempt : PlanEntry → Except String Unit)
    (promptInput : Nat → String) (entries : List PlanEntry)
    (force stop_on_error : Bool) :
    ArtifactRemover.remove attempt promptInput entries true false force stop_on_error
      = ⟨entries.filter (fun e => (e.enabled || force) && e.exists_),
         [],
         entries.filter (fun e => !((e.enabled || force) && e.exists_))⟩ := by
  simp [ArtifactRemover.remove, removeGo_dry_run]

/-! ## Shell quoting lemmas (towards C5) -/

theorem shlexSafeChar_ne (c : Char) (h : shlexSafeChar c = true) :
    c ≠ ' ' ∧ c ≠ sq ∧ c ≠ dq := by
  refine ⟨?_, ?_, ?_⟩ <;> rintro rfl <;> revert h <;> decide

theorem shLex_norm_space (rest cur : List Char) :
    shLex ShMode.norm (' ' :: rest) cur true
      = (shLex ShMode.norm rest [] false).map (fun ws => cur :: ws) := by
  rw [shLex, if_pos rfl, if_pos rfl]

theorem shLex_norm_other {c : Char} (h1 : c ≠ ' ') (h2 : c ≠ sq) (h3 : c ≠ dq)
    (rest cur : List Char) (started : Bool) :
    shLex ShMode.norm (c :: rest) cur started
      = shLex ShMode.norm rest (cur ++ [c]) true := by
  rw [shLex, if_neg h1, if_neg h2, if_neg h3]

theorem shLex_norm_sq (rest cur : List Char) (started : Bool) :
    shLex ShMode.norm (sq :: rest) cur started
      = shLex ShMode.single rest cur true := by
  rw [shLex, if_neg (by decide : sq ≠ ' '), if_pos rfl]

theorem shLex_norm_dq (rest cur : List Char) (started : Bool) :
    shLex ShMode.norm (dq :: rest) cur started
      = shLex ShMode.double rest cur true := by
  rw [shLex, if_neg (by decide : dq ≠ ' '), if_neg (by decide : dq ≠ sq),
    if_pos rfl]

theorem shLex_single_sq (rest cur : List Char) (started : Bool) :
    shLex ShMode.single (sq :: rest) cur started
      = shLex ShMode.norm rest cur started := by
  rw [shLex, if_pos rfl]

theorem shLex_single_other {c : Char} (h : c ≠ sq) (rest cur : List Char)
    (started : Bool) :
    shLex ShMode.single (c :: rest) cur started
      = shLex ShMode.single rest (cur ++ [c]) started := by
  rw [shLex, if_neg h]

theorem shLex_double_dq (rest cur : List Char) (started : Bool) :
    shLex ShMode.double (dq :: rest) cur started
      = shLex ShMode.norm rest cur started := by
  rw [shLex, if_pos rfl]

theorem shLex_double_other {c : Char} (h : c ≠ dq) (rest cur : List Char)
    (started : Bool) :
    shLex ShMode.double (c :: rest) cur started
      = shLex ShMode.double rest (cur ++ [c]) started := by
  rw [shLex, if_neg h]

/-- Running the lexer over safe characters extends the current word. -/
theorem shLex_safe_run (l : List Char) (cur : List Char)
    (h : ∀ c ∈ l, shlexSafeChar c = true) :
    shLex ShMode.norm l cur true = some [cur ++ l] := by
  induction l generalizing cur with
  | nil => simp [shLex]
  | cons c rest ih =>
    obtain ⟨h1, h2, h3⟩ := shlexSafeChar_ne c (h c (by simp))
    rw [shLex_norm_other h1 h2 h3,
      ih (cur ++ [c]) (fun x hx => h x (by simp [hx]))]
    simp

/-- Running the lexer in single-quote mode over the escaped body of
`shlex.quote` appends the original characters to the current word and
consumes the closing quote. -/
theorem shLex_quoted_middle (l : List Char) (rest cur : List Char) :
    shLex ShMode.single ((l.map shlexEscChar).flatten ++ sq :: rest) cur true
      = shLex ShMode.norm rest (cur ++ l) true := by
  induction l generalizing cur with
  | nil => simp [shLex]
  | cons c t ih =>
    by_cases hc : c = sq
    · subst hc
      have hesc : shlexEscChar sq = [sq, dq, sq, dq, sq] := by
        rw [shlexEscChar, if_pos rfl]
      simp only [List.map_cons, List.flatten_cons, hesc, List.cons_append,
        List.append_assoc, List.nil_append]
      rw [shLex_single_sq, shLex_norm_dq, shLex_double_other (by decide),
        shLex_double_dq, shLex_norm_sq, ih (cur ++ [sq])]
      simp
    · have hesc : shlexEscChar c = [c] := by rw [shlexEscChar, if_neg hc]
      simp only [List.map_cons, List.flatten_cons, hesc, List.singleton_append,
        List.cons_append, List.nil_append]
      rw [shLex_single_other hc, ih (cur ++ [c])]
      simp

/-- Lexing a `shell_quote`d string yields exactly the original string as a
single word. -/
theorem shLex_shell_quote (s : String) :
    shLex ShMode.norm (shell_quote s).data [] false = some [s.data] := by
  by_cases h0 : s = ""
  · subst h0; rfl
  · by_cases h1 : s.data.all shlexSafeChar
    · rw [shell_quote, if_neg h0, if_pos h1]
      have hall := List.all_eq_true.mp h1
      cases hd : s.data with
      | nil =>
        refine absurd ?_ h0
        cases s with
        | mk d =>
          have hd' : d = [] := by simpa using hd
          rw [hd']
      | cons c t =>
        have hall' : ∀ x ∈ c :: t, shlexSafeChar x = true := by
          rw [← hd]; exact hall
        obtain ⟨hc1, hc2, hc3⟩ := shlexSafeChar_ne c (hall' c (by simp))
        rw [shLex_norm_other hc1 hc2 hc3,
          shLex_safe_run t ([] ++ [c]) (fun x hx => hall' x (by simp [hx]))]
        simp
    · rw [shell_quote, if_neg h0, if_neg h1]
      show shLex ShMode.norm (sq :: ((s.data.map shlexEscChar).flatten ++ [sq]))
        [] false = some [s.data]
      rw [shLex_norm_sq]
      rw [show (s.data.map shlexEscChar).flatten ++ [sq]
          = (s.data.map shlexEscChar).flatten ++ sq :: [] from rfl]
      rw [shLex_quoted_middle s.data [] []]
      simp [shLex]

/-- Lexing the literal prefix `rm -rf ` emits the two words `rm` and `-rf`. -/
theorem shLex_rm_rf (L : List Char) :
    shLex ShMode.norm ('r' :: 'm' :: ' ' :: '-' :: 'r' :: 'f' :: ' ' :: L) [] false
      = (shLex ShMode.norm L [] false).map
          (fun ws => ['r', 'm'] :: ['-', 'r', 'f'] :: ws) := by
  rw [shLex_norm_other (by decide) (by decide) (by decide),
    shLex_norm_other (by decide) (by decide) (by decide),
    shLex_norm_space,
    shLex_norm_other (by decide) (by decide) (by decide),
    shLex_norm_other (by decide) (by decide) (by decide),
    shLex_norm_other (by decide) (by decide) (by decide),
    shLex_norm_space]
  cases shLex ShMode.norm L [] false <;> simp

/-- Lexing the literal prefix `rm -f ` emits the two words `rm` and `-f`. -/
theorem shLex_rm_f (L : List Char) :
    shLex ShMode.norm ('r' :: 'm' :: ' ' :: '-' :: 'f' :: ' ' :: L) [] false
      = (shLex ShMode.norm L [] false).map
          (fun ws => ['r', 'm'] :: ['-', 'f'] :: ws) := by
  rw [shLex_norm_other (by decide) (by decide) (by decide),
    shLex_norm_other (by decide) (by decide) (by decide),
    shLex_norm_space,
    shLex_norm_other (by decide) (by decide) (by decide),
    shLex_norm_other (by decide) (by decide) (by decide),
    shLex_norm_space]
  cases shLex ShMode.norm L [] false <;> simp

/-- C5: the suggested shell command of a plan entry starts with `rm -rf` for
directory kinds and with `rm -f` for file, symlink and unknown kinds, and in
both cases the whole command lexes to exactly three shell words
`rm`, the flag, and the entry's path — i.e. the quoted path stays one word
even when it contains spaces or quote characters. -/
theorem c5_suggested_command (e : PlanEntry) :
    (e.kind = ArtifactKind.directory →
      (∃ r, e.suggested_command = "rm -rf " ++ r) ∧
        shWords e.suggested_command = some ["rm", "-rf", e.path])
    ∧ (e.kind ≠ ArtifactKind.directory →
      (∃ r, e.suggested_command = "rm -f " ++ r) ∧
        shWords e.suggested_command = some ["rm", "-f", e.path]) := by
  have hq := shLex_shell_quote e.path
  constructor
  · intro hk
    have hcmd : e.suggested_command = "rm -rf " ++ shell_quote e.path := by
      simp [PlanEntry.suggested_command, hk]
    refine ⟨⟨shell_quote e.path, hcmd⟩, ?_⟩
    rw [hcmd, shWords, String.data_append]
    have hdata : ("rm -rf ").data
        = ('r' :: 'm' :: ' ' :: '-' :: 'r' :: 'f' :: ' ' :: []) := by decide
    rw [hdata]
    simp only [List.cons_append, List.nil_append]
    rw [shLex_rm_rf, hq]
    rfl
  · intro hk
    have hcmd : e.suggested_command = "rm -f " ++ shell_quote e.path := by
      simp [PlanEntry.suggested_command, hk]
    refine ⟨⟨shell_quote e.path, hcmd⟩, ?_⟩
    rw [hcmd, shWords, String.data_append]
    have hdata : ("rm -f ").data
        = ('r' :: 'm' :: ' ' :: '-' :: 'f' :: ' ' :: []) := by decide
    rw [hdata]
    simp only [List.cons_append, List.nil_append]
    rw [shLex_rm_f, hq]
    rfl

/-- Witness for C5 at concrete entries: a directory entry whose path contains
a space and a single quote, and a file entry with a plain path. -/
theorem c5_suggested_command_witness :
    ((∃ r, (PlanEntry.mk "App" "/tmp/My App" ArtifactKind.directory
          ArtifactCategory.cache ArtifactScope.default_ true none
          RemovalSafety.safe [] [] true).suggested_command = "rm -rf " ++ r) ∧
      shWords (PlanEntry.mk "App" "/tmp/My App" ArtifactKind.directory
          ArtifactCategory.cache ArtifactScope.default_ true none
          RemovalSafety.safe [] [] true).suggested_command
        = some ["rm", "-rf", "/tmp/My App"])
    ∧ ((∃ r, (PlanEntry.mk "App" "/tmp/p.log" ArtifactKind.file
          ArtifactCategory.logs ArtifactScope.default_ true none
          RemovalSafety.safe [] [] true).suggested_command = "rm -f " ++ r) ∧
      shWords (PlanEntry.mk "App" "/tmp/p.log" ArtifactKind.file
          ArtifactCategory.logs ArtifactScope.default_ true none
          RemovalSafety.safe [] [] true).suggested_command
        = some ["rm", "-f", "/tmp/p.log"]) :=
  ⟨(c5_suggested_command _).1 rfl, (c5_suggested_command _).2 (by decide)⟩

/-! ## Theorems: removal report partition (C7) -/

/-- With `stop_on_error = false`, the removal loop distributes every entry
into exactly one of the three accumulators. -/
theorem removeGo_partition (attempt : PlanEntry → Except String Unit)
    (promptInput : Nat → String) (dry_run prompt force : Bool)
    (l : List PlanEntry) (pc : Nat) (s : List PlanEntry)
    (f : List (PlanEntry × String)) (k : List PlanEntry) :
    ((ArtifactRemover.removeGo attempt promptInput dry_run prompt force false
          l pc s f k).succeeded ++
      (ArtifactRemover.removeGo attempt promptInput dry_run prompt force false
          l pc s f k).failed.map Prod.fst ++
      (ArtifactRemover.removeGo attempt promptInput dry_run prompt force false
          l pc s f k).skipped).Perm
      (s ++ f.map Prod.fst ++ k ++ l) := by
  induction l generalizing pc s f k with
  | nil => simp [ArtifactRemover.removeGo]
  | cons e rest ih =>
    have hsucc : ∀ pc', ((ArtifactRemover.removeGo attempt promptInput dry_run prompt
          force false rest pc' (s ++ [e]) f k).succeeded ++
        (ArtifactRemover.removeGo attempt promptInput dry_run prompt force false
          rest pc' (s ++ [e]) f k).failed.map Prod.fst ++
        (ArtifactRemover.removeGo attempt promptInput dry_run prompt force false
          rest pc' (s ++ [e]) f k).skipped).Perm
        (s ++ f.map Prod.fst ++ k ++ e :: rest) := by
      intro pc'
      refine (ih pc' (s ++ [e]) f k).trans ?_
      simp only [List.append_assoc, List.singleton_append, List.cons_append]
      exact List.Perm.append_left s
        (by simpa [List.append_assoc] using
          (@List.perm_middle _ e (f.map Prod.fst ++ k) rest).symm)
    have hskip : ∀ pc', ((ArtifactRemover.removeGo attempt promptInput dry_run prompt
          force false rest pc' s f (k ++ [e])).succeeded ++
        (ArtifactRemover.removeGo attempt promptInput dry_run prompt force false
          rest pc' s f (k ++ [e])).failed.map Prod.fst ++
        (ArtifactRemover.removeGo attempt promptInput dry_run prompt force false
          rest pc' s f (k ++ [e])).skipped).Perm
        (s ++ f.map Prod.fst ++ k ++ e :: rest) := by
      intro pc'
      refine (ih pc' s f (k ++ [e])).trans ?_
      simp [List.append_assoc]
    have hfail : ∀ pc' msg, ((ArtifactRemover.removeGo attempt promptInput dry_run prompt
          force false rest pc' s (f ++ [(e, msg)]) k).succeeded ++
        (ArtifactRemover.removeGo attempt promptInput dry_run prompt force false
          rest pc' s (f ++ [(e, msg)]) k).failed.map Prod.fst ++
        (ArtifactRemover.removeGo attempt promptInput dry_run prompt force false
          rest pc' s (f ++ [(e, msg)]) k).skipped).Perm
        (s ++ f.map Prod.fst ++ k ++ e :: rest) := by
      intro pc' msg
      refine (ih pc' s (f ++ [(e, msg)]) k).trans ?_
      simp only [List.map_append, List.map_cons, List.map_nil,
        List.append_assoc, List.singleton_append, List.cons_append]
      exact List.Perm.append_left s (List.Perm.append_left (f.map Prod.fst)
        (by simpa using (@List.perm_middle _ e k rest).symm))
    rw [ArtifactRemover.removeGo]
    by_cases h1 : (!((e.enabled || force) && e.exists_)) = true
    · rw [if_pos h1]; exact hskip pc
    · rw [if_neg h1]
      by_cases h2 : (prompt && !confirmAnswer (promptInput pc)) = true
      · rw [if_pos h2]; exact hskip (pc + 1)
      · rw [if_neg h2]
        by_cases h3 : dry_run = true
        · rw [if_pos h3]; exact hsucc _
        · rw [if_neg h3]
          cases hA : attempt e with
          | ok u => exact hsucc _
          | error msg =>
            simp only [Bool.false_eq_true, if_false]
            exact hfail _ msg

/-- C7 (amended): with `stop_on_error = false` — for every combination of the
remaining flags and every removal/prompt oracle — the removal report is a
partition of the input: the concatenation of succeeded, failed (first
components) and skipped entries is a permutation of the provided entries, so
every entry lands in exactly one list. -/
theorem c7_report_partition (attempt : PlanEntry → Except String Unit)
    (promptInput : Nat → String) (entries : List PlanEntry)
    (dry_run prompt force : Bool) :
    ((ArtifactRemover.remove attempt promptInput entries dry_run prompt force
          false).succeeded ++
      (ArtifactRemover.remove attempt promptInput entries dry_run prompt force
          false).failed.map Prod.fst ++
      (ArtifactRemover.remove attempt promptInput entries dry_run prompt force
          false).skipped).Perm entries := by
  simpa using removeGo_partition attempt promptInput dry_run prompt force
    entries 0 [] [] []

/-- Counterexample to C7 as stated: with `stop_on_error = true` and a first
entry whose removal fails, the loop breaks and the second entry appears in
none of the three report lists. -/
theorem c7_stop_on_error_counterexample :
    ¬ (∀ e ∈ ([⟨"app", "/tmp/a", ArtifactKind.file, ArtifactCategory.cache,
            ArtifactScope.default_, true, none, RemovalSafety.safe, [], [], true⟩,
          ⟨"app", "/tmp/b", ArtifactKind.file, ArtifactCategory.cache,
            ArtifactScope.default_, true, none, RemovalSafety.safe, [], [], true⟩] :
          List PlanEntry),
        e ∈ (ArtifactRemover.remove
            (fun _ => Except.error "FileNotFoundError: gone") (fun _ => "")
            [⟨"app", "/tmp/a", ArtifactKind.file, ArtifactCategory.cache,
              ArtifactScope.default_, true, none, RemovalSafety.safe, [], [], true⟩,
             ⟨"app", "/tmp/b", ArtifactKind.file, ArtifactCategory.cache,
               ArtifactScope.default_, true, none, RemovalSafety.safe, [], [], true⟩]
            false false false true).succeeded ∨
          e ∈ (ArtifactRemover.remove
            (fun _ => Except.error "FileNotFoundError: gone") (fun _ => "")
            [⟨"app", "/tmp/a", ArtifactKind.file, ArtifactCategory.cache,
              ArtifactScope.default_, true, none, RemovalSafety.safe, [], [], true⟩,
             ⟨"app", "/tmp/b", ArtifactKind.file, ArtifactCategory.cache,
               ArtifactScope.default_, true, none, RemovalSafety.safe, [], [], true⟩]
            false false false true).failed.map Prod.fst ∨
          e ∈ (ArtifactRemover.remove
            (fun _ => Except.error "FileNotFoundError: gone") (fun _ => "")
            [⟨"app", "/tmp/a", ArtifactKind.file, ArtifactCategory.cache,
              ArtifactScope.default_, true, none, RemovalSafety.safe, [], [], true⟩,
             ⟨"app", "/tmp/b", ArtifactKind.file, ArtifactCategory.cache,
               ArtifactScope.default_, true, none, RemovalSafety.safe, [], [], true⟩]
            false false false true).skipped) := by
  decide

/-! ## Scanner: name and bundle variant generation (scanner.py) -/

/-- The `re.sub(r"[^A-Za-z0-9]+", "", s)`: keep only ASCII alphanumerics (the
`normalized` value of `_name_candidates` and `_bundle_candidates`). -/
def pyNormalized (s : String) : String := ⟨s.data.filter Char.isAlphanum⟩

/-- Python `s.replace(" ", r)` for a one-character replacement. -/
def pyReplaceSpace (s : String) (r : Char) : String :=
  ⟨s.data.map (fun c => if c = ' ' then r else c)⟩

/-- Python `s.replace(" ", "")`. -/
def pyRemoveSpaces (s : String) : String := ⟨s.data.filter (fun c => !(c == ' '))⟩

/-- Characters the slug pattern `[^a-z0-9]+` leaves alone (it is applied to a
lower-cased string): ASCII lower-case letters and digits. -/
def isSlugChar (c : Char) : Bool :=
  (decide ('a' ≤ c) && decide (c ≤ 'z')) || c.isDigit

/-- Collapse each run of consecutive dashes to a single dash. -/
def squashDashes : List Char → List Char
  | [] => []
  | [c] => [c]
  | c :: d :: rest =>
    if c = '-' ∧ d = '-' then squashDashes (d :: rest)
    else c :: squashDashes (d :: rest)

/-- Python `str.strip("-")`. -/
def stripDashes (l : List Char) : List Char :=
  ((l.dropWhile (fun c => c == '-')).reverse.dropWhile (fun c => c == '-')).reverse

/-- The `slug` of `_name_candidates` and `_bundle_candidates`:
`re.sub(r"[^a-z0-9]+", "-", app_name.lower()).strip("-")`.  Mapping every
non-slug character to a dash and then squashing dash runs is the same as
replacing each maximal run of non-slug characters by one dash. -/
def pySlug (app_name : String) : String :=
  ⟨stripDashes (squashDashes ((pyLower app_name).data.map
      (fun c => if isSlugChar c then c else '-')))⟩

/-- The `Scanner._strip_app_suffix`: drop a trailing `.app` (case-insensitive). -/
def _strip_app_suffix (value : String) : String :=
  if pyEndsWith (pyLower value) ".app" then ⟨value.data.take (value.data.length - 4)⟩
  else value

/-- Accumulator loop of `Scanner._unique`: strip each raw value, drop empties
and previously seen values, keep first-seen order (the Python `seen` set
always contains exactly the members of `ordered`). -/
def pyUniqueGo : List String → List String → List String
  | [], ordered => ordered
  | raw :: rest, ordered =>
    let cleaned := pyStrip raw
    if cleaned = "" then pyUniqueGo rest ordered
    else if ordered.contains cleaned then pyUniqueGo rest ordered
    else pyUniqueGo rest (ordered ++ [cleaned])

/-- The `Scanner._unique`. -/
def _unique (values : List String) : List String := pyUniqueGo values []

/-- The `compact` token computed identically in `_name_candidates` and
`_bundle_candidates`: `normalized.lower() if normalized else
spaced_lower.replace(" ", "")`. -/
def compactCandidate (app_name : String) : String :=
  let normalized := pyNormalized app_name
  if normalized ≠ "" then pyLower normalized
  else pyRemoveSpaces (pyLower app_name)

/-- The `Scanner._name_candidates` (scanner.py lines 553-574). -/
def _name_candidates (app_name : String) : List String :=
  let spaced_lower := pyLower app_name
  let slug := pySlug app_name
  let compact := compactCandidate app_name
  _unique
    [app_name,
     _strip_app_suffix app_name,
     spaced_lower,
     _strip_app_suffix spaced_lower,
     pyRemoveSpaces app_name,
     pyRemoveSpaces spaced_lower,
     pyReplaceSpace app_name '-',
     pyReplaceSpace spaced_lower '-',
     pyReplaceSpace app_name '_',
     pyReplaceSpace spaced_lower '_',
     ⟨slug.data.filter (fun c => !(c == '-'))⟩,
     slug,
     compact]

/-- The `Scanner._bundle_candidates` (scanner.py lines 576-607). -/
def _bundle_candidates (app_name : String) (name_candidates : List String) :
    List String :=
  let compact := compactCandidate app_name
  let slug := pySlug app_name
  let raw_candidates :=
    [compact,
     ⟨slug.data.map (fun c => if c = '-' then '.' else c)⟩,
     if compact ≠ "" then "com." ++ compact else ""]
    ++ name_candidates.filter (fun c => pyStartsWith c "com.")
    ++ (name_candidates.filter
          (fun c => !(c == "") && !(pyStartsWith c "com."))).map
        (fun c => "com." ++ c)
  let bundle_candidates := _unique raw_candidates
  if bundle_candidates = [] then
    if compact ≠ "" then [compact]
    else name_candidates.filter (fun c => !(c == ""))
  else bundle_candidates

/-! ## Scanner: candidate construction (scanner.py) -/

/-- The `ScanCandidate` of scanner.py. -/
structure ScanCandidate where
  path : String
  category : ArtifactCategory
  scope : ArtifactScope
  removal_safety : RemovalSafety
  notes : List String := []
  deriving DecidableEq, Repr

/-- The `add_candidate` helper of `_default_candidates`: one candidate with a
single note. -/
def mkCandidate (path : String) (category : ArtifactCategory)
    (scope : ArtifactScope) (safety : RemovalSafety) (note : String) :
    ScanCandidate :=
  ⟨path, category, scope, safety, [note]⟩

/-- The `application_roots` block of `_default_candidates`: per root, all
bundle names then all app titles. -/
def applicationSection (home : String) (bundle_names app_titles : List String) :
    List ScanCandidate :=
  let application_roots : List (String × ArtifactScope × String) :=
    [("/Applications", ArtifactScope.system, "System Applications directory"),
     ("/Applications/Utilities", ArtifactScope.system,
       "System Utilities directory"),
     ("/System/Applications", ArtifactScope.system,
       "System managed Applications directory"),
     ("/System/Applications/Utilities", ArtifactScope.system,
       "System managed Utilities directory"),
     ("/Applications/Setapp", ArtifactScope.system, "Setapp directory"),
     (home ++ "/Applications", ArtifactScope.default_,
       "User Applications directory")]
  application_roots.flatMap fun rsn =>
    bundle_names.map (fun b => mkCandidate (rsn.1 ++ "/" ++ b)
        ArtifactCategory.application rsn.2.1 RemovalSafety.caution rsn.2.2)
    ++ app_titles.map (fun t => mkCandidate (rsn.1 ++ "/" ++ t)
        ArtifactCategory.application rsn.2.1 RemovalSafety.caution rsn.2.2)

/-- The `/Users/Shared` block of `_default_candidates`. -/
def sharedSection (app_titles : List String) : List ScanCandidate :=
  app_titles.map fun t => mkCandidate ("/Users/Shared" ++ "/" ++ t)
    ArtifactCategory.support ArtifactScope.system RemovalSafety.caution
    "Shared user directory"

/-- The `support_roots` block of `_default_candidates`. -/
def supportSection (home : String) (combined_names : List String) :
    List ScanCandidate :=
  let support_roots : List (String × ArtifactScope × String) :=
    [(home ++ "/Library/Application Support", ArtifactScope.default_,
       "User Application Support location"),
     ("/Library/Application Support", ArtifactScope.system,
       "System Application Support location")]
  support_roots.flatMap fun rsn =>
    combined_names.map fun n => mkCandidate (rsn.1 ++ "/" ++ n)
      ArtifactCategory.support rsn.2.1 RemovalSafety.caution rsn.2.2

/-- The `preference_roots` block of `_default_candidates`: the targets are the
name candidates plus the bundle candidates each suffixed `.plist`; in the loop
a further `.plist` is appended only when the target does not already end in
`.plist`. -/
def preferencesSection (home : String) (preference_targets : List String) :
    List ScanCandidate :=
  let preference_roots : List (String × ArtifactScope × String) :=
    [(home ++ "/Library/Preferences", ArtifactScope.default_,
       "User preferences plist"),
     ("/Library/Preferences", ArtifactScope.system, "System preferences plist")]
  preference_roots.flatMap fun rsn =>
    preference_targets.map fun target =>
      let suffix := if pyEndsWith target ".plist" then target
        else target ++ ".plist"
      mkCandidate (rsn.1 ++ "/" ++ suffix) ArtifactCategory.preferences
        rsn.2.1 RemovalSafety.caution rsn.2.2

/-- The `launch_roots` block of `_default_candidates`. -/
def launchSection (home : String) (combined_names : List String) :
    List ScanCandidate :=
  let launch_roots : List (String × ArtifactScope × String) :=
    [(home ++ "/Library/LaunchAgents", ArtifactScope.default_,
       "User LaunchAgents plist"),
     ("/Library/LaunchAgents", ArtifactScope.system, "System LaunchAgents plist"),
     ("/Library/LaunchDaemons", ArtifactScope.system,
       "System LaunchDaemons plist")]
  launch_roots.flatMap fun rsn =>
    combined_names.map fun n => mkCandidate (rsn.1 ++ "/" ++ n ++ ".plist")
      ArtifactCategory.launchAgent rsn.2.1 RemovalSafety.caution rsn.2.2

/-- The `cache_roots` block of `_default_candidates` (safety SAFE). -/
def cacheSection (home : String) (combined_names : List String) :
    List ScanCandidate :=
  let cache_roots : List (String × ArtifactScope × String) :=
    [(home ++ "/Library/Caches", ArtifactScope.default_, "User caches"),
     ("/Library/Caches", ArtifactScope.system, "System caches")]
  cache_roots.flatMap fun rsn =>
    combined_names.map fun n => mkCandidate (rsn.1 ++ "/" ++ n)
      ArtifactCategory.cache rsn.2.1 RemovalSafety.safe rsn.2.2

/-- The `log_roots` block of `_default_candidates` (safety SAFE). -/
def logSection (home : String) (combined_names : List String) :
    List ScanCandidate :=
  let log_roots : List (String × ArtifactScope × String) :=
    [(home ++ "/Library/Logs", ArtifactScope.default_, "User logs"),
     ("/Library/Logs", ArtifactScope.system, "System logs")]
  log_roots.flatMap fun rsn =>
    combined_names.map fun n => mkCandidate (rsn.1 ++ "/" ++ n)
      ArtifactCategory.logs rsn.2.1 RemovalSafety.safe rsn.2.2

/-- The `saved_state_roots` block of `_default_candidates`. -/
def savedStateSection (home : String) (bundle_candidates : List String) :
    List ScanCandidate :=
  let saved_state_roots : List (String × ArtifactScope × String) :=
    [(home ++ "/Library/Saved Application State", ArtifactScope.default_,
       "User saved application state"),
     ("/Library/Saved Application State", ArtifactScope.system,
       "System saved application state")]
  saved_state_roots.flatMap fun rsn =>
    bundle_candidates.map fun b =>
      mkCandidate (rsn.1 ++ "/" ++ b ++ ".savedState") ArtifactCategory.support
        rsn.2.1 RemovalSafety.caution rsn.2.2

/-- The `container_roots` block of `_default_candidates`. -/
def containerSection (home : String) (bundle_candidates : List String) :
    List ScanCandidate :=
  let container_roots : List (String × ArtifactScope × String) :=
    [(home ++ "/Library/Containers", ArtifactScope.default_,
       "User application containers"),
     (home ++ "/Library/Group Containers", ArtifactScope.default_,
       "User group containers"),
     (home ++ "/Library/Application Scripts", ArtifactScope.default_,
       "User application scripts")]
  container_roots.flatMap fun rsn =>
    bundle_candidates.map fun b => mkCandidate (rsn.1 ++ "/" ++ b)
      ArtifactCategory.support rsn.2.1 RemovalSafety.caution rsn.2.2

/-- The `Scanner._default_candidates` (scanner.py lines 218-456), assembled from
the blocks above in source order. -/
def _default_candidates (home : String) (app_name : String) :
    List ScanCandidate :=
  let name_candidates := _name_candidates app_name
  let bundle_candidates := _bundle_candidates app_name name_candidates
  let app_titles := _unique (name_candidates.map _strip_app_suffix)
  let bundle_names :=
    _unique ((app_titles.filter (fun t => !(t == ""))).map (fun t => t ++ ".app"))
  let combined_names := name_candidates ++ bundle_candidates
  let preference_targets :=
    _unique (name_candidates ++ bundle_candidates.map (fun b => b ++ ".plist"))
  applicationSection home bundle_names app_titles
    ++ sharedSection app_titles
    ++ supportSection home combined_names
    ++ preferencesSection home preference_targets
    ++ launchSection home combined_names
    ++ cacheSection home combined_names
    ++ logSection home combined_names
    ++ savedStateSection home bundle_candidates
    ++ containerSection home bundle_candidates

/-! ## Scanner: deep home search (scanner.py lines 458-514) -/

/-- One step of the `os.walk(home)` event stream: either a yielded
`(root, dirnames, filenames)` triple or a call to the `onerror` callback with
the failing filename and message. -/
inductive WalkEvent where
  | visit (root : String) (dirnames : List String) (filenames : List String)
  | ioError (filename : String) (strerror : String)
  deriving DecidableEq, Repr

/-- The `pattern.search(entry)` for `pattern =
re.compile(re.escape(app_name), re.IGNORECASE)`: case-insensitive substring
test. -/
def deepMatch (app_name entry : String) : Bool :=
  decide ((pyLower app_name).data <:+: (pyLower entry).data)

/-- The truncation error appended when the 500-match cap is hit. -/
def deepTruncMsg : String := "Deep home search truncated after 500 matches."

/-- The `_onerror` message format. -/
def deepIoMsg (filename strerror : String) : String :=
  "Deep home search encountered an error at " ++ filename ++ ": " ++ strerror

/-- A deep-search match candidate (`Path(root) / entry`). -/
def deepCandidate (root entry : String) : ScanCandidate :=
  ⟨root ++ "/" ++ entry, ArtifactCategory.other, ArtifactScope.discovered,
   RemovalSafety.review, ["Deep home search match"]⟩

/-- Mutable state of `_deep_home_candidates`. -/
structure DeepState where
  candidates : List ScanCandidate
  errors : List String
  match_count : Nat
  truncated : Bool
  deriving DecidableEq, Repr

/-- One inner `for entry in dirnames` / `for entry in filenames` loop of
`_deep_home_candidates` (`max_matches = 500`): matches append a candidate and
bump the counter; hitting the cap records the truncation error, sets the flag
and breaks. -/
def deepProcNames (app_name root : String) : List String → DeepState → DeepState
  | [], st => st
  | entry :: rest, st =>
    if deepMatch app_name entry then
      let st1 : DeepState :=
        { st with candidates := st.candidates ++ [deepCandidate root entry],
                  match_count := st.match_count + 1 }
      if 500 ≤ st1.match_count then
        { st1 with truncated := true, errors := st1.errors ++ [deepTruncMsg] }
      else deepProcNames app_name root rest st1
    else deepProcNames app_name root rest st

/-- The outer `for root, dirnames, filenames in os.walk(home)` loop: once
truncated, the walk is abandoned (the `break`s), so no later event — including
`onerror` calls — is processed. -/
def deepWalkLoop (app_name : String) : List WalkEvent → DeepState → DeepState
  | [], st => st
  | ev :: rest, st =>
    if st.truncated then st
    else
      match ev with
      | WalkEvent.ioError filename strerror =>
        deepWalkLoop app_name rest
          { st with errors := st.errors ++ [deepIoMsg filename strerror] }
      | WalkEvent.visit root dirnames filenames =>
        let st1 := deepProcNames app_name root dirnames st
        let st2 := if st1.truncated then st1
          else deepProcNames app_name root filenames st1
        deepWalkLoop app_name rest st2

/-- The `Scanner._deep_home_candidates`, over the walk event stream of the home
directory. -/
def _deep_home_candidates (walk : List WalkEvent) (app_name : String) :
    List ScanCandidate × List String :=
  let st := deepWalkLoop app_name walk ⟨[], [], 0, false⟩
  (st.candidates, st.errors)

/-! ## Scanner: configuration, filesystem gateway, scan (scanner.py) -/

/-- The `AppConfiguration` of configuration.py (paths as strings). -/
structure AppConfiguration where
  name : String
  additional_locations : List String := []
  installation_path : Option String := none
  deep_home_search : Bool := false
  patterns : List String := []
  deriving DecidableEq, Repr

/-- The `os.stat_result` as used by `_materialize` (size and mtime only). -/
structure Stat where
  st_size : Int
  st_mtime : Int
  deriving DecidableEq, Repr

/-- The injected `Filesystem` protocol of scanner.py, together with the
ambient OS state the scanner touches directly: `expand` models
`os.path.expanduser(os.path.expandvars(...))`, `glob` models
`glob.iglob(..., recursive=True)`, and `walk` is the event stream
`os.walk(home)` would produce (with `onerror` invocations interleaved).
`stat` returns the exception text on failure. -/
structure Filesystem where
  exists_ : String → Bool
  is_dir : String → Bool
  is_file : String → Bool
  is_symlink : String → Bool
  stat : String → Except String Stat
  is_writable : String → Bool
  resolve : String → String
  home : String
  expand : String → String
  glob : String → List String
  walk : List WalkEvent

/-- The one-character string holding a single quote. -/
def sqs : String := ⟨[sq]⟩

/-- The `Scanner._configured_candidates` (scanner.py lines 516-551). -/
def _configured_candidates (fs : Filesystem) (configuration : AppConfiguration) :
    List ScanCandidate × List String :=
  let location_candidates := configuration.additional_locations.map fun location =>
    (⟨location, ArtifactCategory.other, ArtifactScope.configured,
      RemovalSafety.review, ["Configured additional location"]⟩ : ScanCandidate)
  let pattern_state := configuration.patterns.foldl
    (fun (acc : List ScanCandidate × List String) pattern =>
      let expanded := fs.expand pattern
      let globMatches := fs.glob expanded
      if globMatches = [] then
        (acc.1, acc.2 ++ ["Pattern " ++ sqs ++ pattern ++ sqs
          ++ " did not match any paths."])
      else
        (acc.1 ++ globMatches.map (fun m =>
          (⟨m, ArtifactCategory.other, ArtifactScope.configured,
            RemovalSafety.review,
            ["Matched configured pattern " ++ sqs ++ pattern ++ sqs]⟩ :
            ScanCandidate)), acc.2))
    ([], [])
  (location_candidates ++ pattern_state.1, pattern_state.2)

/-- The `Scanner._build_candidates` (scanner.py lines 196-216): defaults, then
configured, then (when enabled) deep-search candidates; errors are the
configured errors followed by the deep-search errors. -/
def Scanner._build_candidates (fs : Filesystem)
    (configuration : AppConfiguration) (deep_home_search : Bool) :
    List ScanCandidate × List String :=
  let candidates := _default_candidates fs.home configuration.name
  let configured := _configured_candidates fs configuration
  let deep := if deep_home_search
    then _deep_home_candidates fs.walk configuration.name
    else ([], [])
  (candidates ++ configured.1 ++ deep.1, configured.2 ++ deep.2)

/-- The `Scanner._canonical_key`. -/
def Scanner._canonical_key (fs : Filesystem) (path : String) : String :=
  fs.resolve path

/-- The `Scanner._determine_kind`: symlink before directory before file; anything
else — including non-existent paths — is unknown. -/
def Scanner._determine_kind (fs : Filesystem) (path : String) (ex : Bool) :
    ArtifactKind :=
  if !ex then ArtifactKind.unknown
  else if fs.is_symlink path then ArtifactKind.symlink
  else if fs.is_dir path then ArtifactKind.directory
  else if fs.is_file path then ArtifactKind.file
  else ArtifactKind.unknown

/-- The `Scanner._materialize` (scanner.py lines 140-179): resolve, probe
existence/kind/writability and — only for existing paths — stat for size
(regular non-symlink files only) and mtime; a stat failure yields an error
message instead of metadata. -/
def Scanner._materialize (fs : Filesystem) (app_name : String)
    (candidate : ScanCandidate) : Artifact × Option String :=
  let resolved_path := fs.resolve candidate.path
  let ex := fs.exists_ resolved_path
  let kind := Scanner._determine_kind fs resolved_path ex
  let writable := if ex then some (fs.is_writable resolved_path) else none
  let info : Option Int × Option Int × Option String :=
    if ex then
      match fs.stat resolved_path with
      | Except.ok stats =>
        (if kind = ArtifactKind.file ∧ fs.is_symlink resolved_path = false
          then some stats.st_size else none,
         some stats.st_mtime, none)
      | Except.error exc =>
        (none, none,
         some ("Failed to read metadata for " ++ resolved_path ++ ": " ++ exc))
    else (none, none, none)
  ({ app_name := app_name
     path := resolved_path
     kind := kind
     scope := candidate.scope
     category := candidate.category
     removal_safety := candidate.removal_safety
     exists_ := ex
     writable := writable
     size_bytes := info.1
     last_modified := info.2.1
     notes := candidate.notes }, info.2.2)

/-- State of the candidate loop inside `Scanner.scan`. -/
structure ScanState where
  seen_paths : List String
  artifacts : List Artifact
  errors : List String
  deriving DecidableEq, Repr

/-- The `for candidate in candidates` loop of `Scanner.scan` (scanner.py lines
119-132): skip already-seen canonical keys, materialize the rest, keep an
artifact when it exists or when a missing candidate has configured scope, and
collect materialization errors. -/
def Scanner.scanLoop (fs : Filesystem) (name : String) :
    List ScanCandidate → ScanState → ScanState
  | [], st => st
  | candidate :: rest, st =>
    let canonical := Scanner._canonical_key fs candidate.path
    if st.seen_paths.contains canonical then Scanner.scanLoop fs name rest st
    else
      let res := Scanner._materialize fs name candidate
      let include_missing :=
        !res.1.exists_ && decide (candidate.scope = ArtifactScope.configured)
      let artifacts' := if res.1.exists_ || include_missing
        then st.artifacts ++ [res.1] else st.artifacts
      let errors' := match res.2 with
        | some e => st.errors ++ [e]
        | none => st.errors
      Scanner.scanLoop fs name rest ⟨canonical :: st.seen_paths, artifacts', errors'⟩

/-- The `Scanner.scan` (scanner.py lines 107-138); `deep_home_search_default` is
the scanner's constructor flag and `now` the wall clock. -/
def Scanner.scan (fs : Filesystem) (deep_home_search_default : Bool)
    (configuration : AppConfiguration) (now : Int) : ScanResult :=
  let should_deep_search :=
    configuration.deep_home_search || deep_home_search_default
  let built := Scanner._build_candidates fs configuration should_deep_search
  let st := Scanner.scanLoop fs configuration.name built.1 ⟨[], [], built.2⟩
  ⟨configuration.name, st.artifacts, now, st.errors⟩

/-! ## Scan-loop lemmas and theorems C2, C4, C9 -/

theorem materialize_path (fs : Filesystem) (n : String) (c : ScanCandidate) :
    (Scanner._materialize fs n c).1.path = fs.resolve c.path := rfl

theorem materialize_scope (fs : Filesystem) (n : String) (c : ScanCandidate) :
    (Scanner._materialize fs n c).1.scope = c.scope := rfl

theorem contains_iff_mem (l : List String) (x : String) :
    l.contains x = true ↔ x ∈ l := List.elem_iff

/-- One unfolding step of the scan loop. -/
theorem scanLoop_cons (fs : Filesystem) (name : String) (candidate : ScanCandidate)
    (rest : List ScanCandidate) (st : ScanState) :
    Scanner.scanLoop fs name (candidate :: rest) st =
      if st.seen_paths.contains (Scanner._canonical_key fs candidate.path) then
        Scanner.scanLoop fs name rest st
      else
        Scanner.scanLoop fs name rest
          ⟨Scanner._canonical_key fs candidate.path :: st.seen_paths,
           (if (Scanner._materialize fs name candidate).1.exists_
               || (!(Scanner._materialize fs name candidate).1.exists_
                  && decide (candidate.scope = ArtifactScope.configured))
             then st.artifacts ++ [(Scanner._materialize fs name candidate).1]
             else st.artifacts),
           (match (Scanner._materialize fs name candidate).2 with
            | some e => st.errors ++ [e]
            | none => st.errors)⟩ := rfl

/-- Unfolding equation for `Scanner.scan`, stated at the level of the scan
loop. -/
theorem scan_artifacts_eq (fs : Filesystem) (d : Bool) (cfg : AppConfiguration)
    (now : Int) :
    (Scanner.scan fs d cfg now).artifacts
      = (Scanner.scanLoop fs cfg.name
          (Scanner._build_candidates fs cfg (cfg.deep_home_search || d)).1
          ⟨[], [],
            (Scanner._build_candidates fs cfg (cfg.deep_home_search || d)).2⟩).artifacts := by
  simp only [Scanner.scan]

theorem build_candidates_false (fs : Filesystem) (cfg : AppConfiguration) :
    Scanner._build_candidates fs cfg false
      = (_default_candidates fs.home cfg.name
          ++ (_configured_candidates fs cfg).1,
         (_configured_candidates fs cfg).2) := by
  simp [Scanner._build_candidates]

theorem build_candidates_true (fs : Filesystem) (cfg : AppConfiguration) :
    Scanner._build_candidates fs cfg true
      = (_default_candidates fs.home cfg.name
          ++ (_configured_candidates fs cfg).1
          ++ (_deep_home_candidates fs.walk cfg.name).1,
         (_configured_candidates fs cfg).2
          ++ (_deep_home_candidates fs.walk cfg.name).2) := by
  simp [Scanner._build_candidates]

/-- The scan loop preserves the invariant that every collected artifact exists
or has configured scope. -/
theorem scanLoop_exists_or_configured (fs : Filesystem) (name : String)
    (cands : List ScanCandidate) (st : ScanState)
    (h : ∀ a ∈ st.artifacts, a.exists_ = true ∨ a.scope = ArtifactScope.configured) :
    ∀ a ∈ (Scanner.scanLoop fs name cands st).artifacts,
      a.exists_ = true ∨ a.scope = ArtifactScope.configured := by
  induction cands generalizing st with
  | nil => simpa [Scanner.scanLoop] using h
  | cons candidate rest ih =>
    rw [scanLoop_cons]
    by_cases hseen :
        st.seen_paths.contains (Scanner._canonical_key fs candidate.path) = true
    · rw [if_pos hseen]
      exact ih st h
    · rw [if_neg hseen]
      apply ih
      intro a ha
      dsimp only at ha
      by_cases hex : (Scanner._materialize fs name candidate).1.exists_ = true
      · rw [if_pos (by simp [hex])] at ha
        rcases List.mem_append.mp ha with h1 | h1
        · exact h a h1
        · rw [List.mem_singleton.mp h1]
          exact Or.inl hex
      · have hex' : (Scanner._materialize fs name candidate).1.exists_ = false :=
          Bool.eq_false_iff.mpr hex
        by_cases hcfg : candidate.scope = ArtifactScope.configured
        · rw [if_pos (by simp [hex', hcfg])] at ha
          rcases List.mem_append.mp ha with h1 | h1
          · exact h a h1
          · rw [List.mem_singleton.mp h1]
            exact Or.inr (by rw [materialize_scope]; exact hcfg)
        · rw [if_neg (by simp [hex', hcfg])] at ha
          exact h a ha

/-- C2: every artifact in a scan result exists or has configured scope — a
non-existent path survives into the result only when it came from a
user-configured location. -/
theorem c2_artifacts_exist_or_configured (fs : Filesystem) (d : Bool)
    (cfg : AppConfiguration) (now : Int) :
    (Scanner.scan fs d cfg now).artifacts.all
      (fun a => a.exists_ || decide (a.scope = ArtifactScope.configured))
      = true := by
  rw [List.all_eq_true]
  intro a ha
  rw [scan_artifacts_eq] at ha
  have := scanLoop_exists_or_configured fs cfg.name _ _
    (by intro a ha'; exact absurd ha' (by simp)) a ha
  rcases this with h | h <;> simp [h]

/-- The scan loop processes an appended candidate list in two stages. -/
theorem scanLoop_append (fs : Filesystem) (name : String)
    (l1 l2 : List ScanCandidate) (st : ScanState) :
    Scanner.scanLoop fs name (l1 ++ l2) st
      = Scanner.scanLoop fs name l2 (Scanner.scanLoop fs name l1 st) := by
  induction l1 generalizing st with
  | nil => simp [Scanner.scanLoop]
  | cons c rest ih =>
    rw [List.cons_append, scanLoop_cons, scanLoop_cons]
    by_cases hseen : st.seen_paths.contains (Scanner._canonical_key fs c.path) = true
    · rw [if_pos hseen, if_pos hseen, ih]
    · rw [if_neg hseen, if_neg hseen, ih]

/-- The scan loop only ever appends artifacts. -/
theorem scanLoop_artifacts_extend (fs : Filesystem) (name : String)
    (l : List ScanCandidate) (st : ScanState) :
    ∃ t, (Scanner.scanLoop fs name l st).artifacts = st.artifacts ++ t := by
  induction l generalizing st with
  | nil => exact ⟨[], by simp [Scanner.scanLoop]⟩
  | cons c rest ih =>
    rw [scanLoop_cons]
    by_cases hseen : st.seen_paths.contains (Scanner._canonical_key fs c.path) = true
    · rw [if_pos hseen]
      exact ih st
    · rw [if_neg hseen]
      by_cases hc : ((Scanner._materialize fs name c).1.exists_
          || (!(Scanner._materialize fs name c).1.exists_
            && decide (c.scope = ArtifactScope.configured))) = true
      · rw [if_pos hc]
        obtain ⟨t, ht⟩ := ih ⟨Scanner._canonical_key fs c.path :: st.seen_paths,
          st.artifacts ++ [(Scanner._materialize fs name c).1],
          (match (Scanner._materialize fs name c).2 with
            | some e => st.errors ++ [e]
            | none => st.errors)⟩
        exact ⟨[(Scanner._materialize fs name c).1] ++ t, by rw [ht]; simp⟩
      · rw [if_neg hc]
        obtain ⟨t, ht⟩ := ih ⟨Scanner._canonical_key fs c.path :: st.seen_paths,
          st.artifacts,
          (match (Scanner._materialize fs name c).2 with
            | some e => st.errors ++ [e]
            | none => st.errors)⟩
        exact ⟨t, ht⟩

/-- The seen-set and artifact evolution of the scan loop do not depend on the
error accumulator. -/
theorem scanLoop_errors_indep (fs : Filesystem) (name : String)
    (l : List ScanCandidate) (seen : List String) (arts : List Artifact)
    (e1 e2 : List String) :
    (Scanner.scanLoop fs name l ⟨seen, arts, e1⟩).seen_paths
        = (Scanner.scanLoop fs name l ⟨seen, arts, e2⟩).seen_paths
    ∧ (Scanner.scanLoop fs name l ⟨seen, arts, e1⟩).artifacts
        = (Scanner.scanLoop fs name l ⟨seen, arts, e2⟩).artifacts := by
  induction l generalizing seen arts e1 e2 with
  | nil => exact ⟨rfl, rfl⟩
  | cons c rest ih =>
    rw [scanLoop_cons, scanLoop_cons]
    dsimp only
    by_cases hseen : seen.contains (Scanner._canonical_key fs c.path) = true
    · rw [if_pos hseen, if_pos hseen]
      exact ih seen arts e1 e2
    · rw [if_neg hseen, if_neg hseen]
      exact ih _ _ _ _

/-- C9: enabling deep home search only appends artifacts: the deep scan's
artifact list extends the non-deep scan's artifact list, so the non-deep
artifact set (and hence its canonical-path set) is a subset of the deep one
and no existing artifact is removed or changed. -/
theorem c9_deep_search_extends (fs : Filesystem) (d : Bool)
    (cfg : AppConfiguration) (now : Int) :
    ∃ t, (Scanner.scan fs d { cfg with deep_home_search := true } now).artifacts
      = (Scanner.scan fs d { cfg with deep_home_search := false } now).artifacts
        ++ t := by
  have hTn : ({ cfg with deep_home_search := true } : AppConfiguration).name
      = cfg.name := rfl
  have hFn : ({ cfg with deep_home_search := false } : AppConfiguration).name
      = cfg.name := rfl
  have hTd : ({ cfg with deep_home_search := true } :
      AppConfiguration).deep_home_search = true := rfl
  have hFd : ({ cfg with deep_home_search := false } :
      AppConfiguration).deep_home_search = false := rfl
  have hconfT : _configured_candidates fs { cfg with deep_home_search := true }
      = _configured_candidates fs cfg := rfl
  have hconfF : _configured_candidates fs { cfg with deep_home_search := false }
      = _configured_candidates fs cfg := rfl
  cases d with
  | true =>
    refine ⟨[], ?_⟩
    rw [scan_artifacts_eq, scan_artifacts_eq, hTn, hFn, hTd, hFd,
      Bool.true_or, Bool.false_or, build_candidates_true, build_candidates_true,
      hconfT, hconfF, List.append_nil]
  | false =>
    rw [scan_artifacts_eq, scan_artifacts_eq, hTn, hFn, hTd, hFd,
      Bool.or_false, Bool.or_false, build_candidates_true,
      build_candidates_false, hconfT, hconfF]
    rw [scanLoop_append]
    obtain ⟨t, ht⟩ := scanLoop_artifacts_extend fs cfg.name
      (_deep_home_candidates fs.walk cfg.name).1
      (Scanner.scanLoop fs cfg.name
        (_default_candidates fs.home cfg.name
          ++ (_configured_candidates fs cfg).1)
        ⟨[], [],
          (_configured_candidates fs cfg).2
            ++ (_deep_home_candidates fs.walk cfg.name).2⟩)
    rw [ht,
      (scanLoop_errors_indep fs cfg.name
        (_default_candidates fs.home cfg.name
          ++ (_configured_candidates fs cfg).1)
        [] []
        ((_configured_candidates fs cfg).2
          ++ (_deep_home_candidates fs.walk cfg.name).2)
        (_configured_candidates fs cfg).2).2]
    exact ⟨t, rfl⟩

/-- The scan loop keeps artifact paths pairwise distinct: every collected
artifact's path is in the seen set, and fresh artifacts have unseen paths. -/
theorem scanLoop_nodup (fs : Filesystem) (name : String)
    (l : List ScanCandidate) (st : ScanState)
    (hmem : ∀ a ∈ st.artifacts, st.seen_paths.contains a.path = true)
    (hnd : (st.artifacts.map (fun a => a.path)).Nodup) :
    ((Scanner.scanLoop fs name l st).artifacts.map (fun a => a.path)).Nodup := by
  induction l generalizing st with
  | nil => simpa [Scanner.scanLoop] using hnd
  | cons c rest ih =>
    rw [scanLoop_cons]
    by_cases hseen : st.seen_paths.contains (Scanner._canonical_key fs c.path) = true
    · rw [if_pos hseen]
      exact ih st hmem hnd
    · rw [if_neg hseen]
      by_cases hc : ((Scanner._materialize fs name c).1.exists_
          || (!(Scanner._materialize fs name c).1.exists_
            && decide (c.scope = ArtifactScope.configured))) = true
      · rw [if_pos hc]
        apply ih
        · intro a ha
          dsimp only at ha ⊢
          rcases List.mem_append.mp ha with h1 | h1
          · exact (contains_iff_mem _ _).mpr
              (List.mem_cons_of_mem _ ((contains_iff_mem _ _).mp (hmem a h1)))
          · rw [List.mem_singleton.mp h1]
            refine (contains_iff_mem _ _).mpr ?_
            rw [materialize_path, Scanner._canonical_key]
            exact List.mem_cons_self _ _
        · dsimp only
          rw [List.map_append]
          simp only [List.map_cons, List.map_nil]
          refine List.Nodup.append hnd (by simp) ?_
          rw [List.disjoint_singleton]
          intro hcontra
          rcases List.mem_map.mp hcontra with ⟨a, ha, hpa⟩
          have := hmem a ha
          rw [hpa] at this
          rw [materialize_path] at this
          rw [Scanner._canonical_key] at hseen
          exact hseen this
      · rw [if_neg hc]
        apply ih
        · intro a ha
          dsimp only at ha ⊢
          exact (contains_iff_mem _ _).mpr
            (List.mem_cons_of_mem _ ((contains_iff_mem _ _).mp (hmem a ha)))
        · exact hnd

/-- Every artifact the scan loop adds comes from the first not-yet-seen
candidate whose canonical key is the artifact's path. -/
theorem scanLoop_first_wins (fs : Filesystem) (name : String)
    (l : List ScanCandidate) (st : ScanState) (a : Artifact)
    (ha : a ∈ (Scanner.scanLoop fs name l st).artifacts) :
    a ∈ st.artifacts
    ∨ ∃ c, l.find? (fun c => Scanner._canonical_key fs c.path == a.path) = some c
        ∧ st.seen_paths.contains (Scanner._canonical_key fs c.path) = false
        ∧ a = (Scanner._materialize fs name c).1 := by
  induction l generalizing st with
  | nil =>
    left
    simpa [Scanner.scanLoop] using ha
  | cons c0 rest ih =>
    rw [scanLoop_cons] at ha
    by_cases hseen : st.seen_paths.contains (Scanner._canonical_key fs c0.path) = true
    · rw [if_pos hseen] at ha
      rcases ih st ha with h | ⟨c, hfind, hnc, hac⟩
      · exact Or.inl h
      · refine Or.inr ⟨c, ?_, hnc, hac⟩
        rw [List.find?_cons_of_neg]
        · exact hfind
        · intro hpred
          have hkey : Scanner._canonical_key fs c0.path = a.path :=
            eq_of_beq hpred
          have hkey2 : Scanner._canonical_key fs c.path = a.path := by
            have := List.find?_some hfind
            exact eq_of_beq this
          rw [hkey, ← hkey2] at hseen
          rw [hseen] at hnc
          exact Bool.true_eq_false.mp hnc
    · rw [if_neg hseen] at ha
      rcases ih _ ha with h | ⟨c, hfind, hnc, hac⟩
      · dsimp only at h
        by_cases hc : ((Scanner._materialize fs name c0).1.exists_
            || (!(Scanner._materialize fs name c0).1.exists_
              && decide (c0.scope = ArtifactScope.configured))) = true
        · rw [if_pos hc] at h
          rcases List.mem_append.mp h with h1 | h1
          · exact Or.inl h1
          · rw [List.mem_singleton.mp h1]
            refine Or.inr ⟨c0, ?_, Bool.eq_false_iff.mpr hseen, rfl⟩
            rw [List.find?_cons_of_pos]
            rw [materialize_path]
            exact beq_self_eq_true _
        · rw [if_neg hc] at h
          exact Or.inl h
      · dsimp only at hnc
        rw [List.contains_cons] at hnc
        have hparts := Bool.or_eq_false_iff.mp hnc
        refine Or.inr ⟨c, ?_, hparts.2, hac⟩
        rw [List.find?_cons_of_neg]
        · exact hfind
        · intro hpred
          have hkey0 : Scanner._canonical_key fs c0.path = a.path :=
            eq_of_beq hpred
          have hkeyc : Scanner._canonical_key fs c.path = a.path := by
            have := List.find?_some hfind
            exact eq_of_beq this
          have : (Scanner._canonical_key fs c.path
              == Scanner._canonical_key fs c0.path) = false := hparts.1
          rw [hkey0, hkeyc] at this
          simp at this

/-- C4: within one scan, artifact paths (which are exactly the canonical
dedup keys) are pairwise distinct, and every returned artifact is the
materialization of the first candidate in the built candidate list whose
canonical key equals the artifact's path — later candidates with the same
canonical key are dropped. -/
theorem c4_dedup_first_wins (fs : Filesystem) (d : Bool)
    (cfg : AppConfiguration) (now : Int) :
    ((Scanner.scan fs d cfg now).artifacts.map (fun a => a.path)).Nodup
    ∧ (Scanner.scan fs d cfg now).artifacts.all (fun a =>
        ((Scanner._build_candidates fs cfg (cfg.deep_home_search || d)).1.find?
            (fun c => Scanner._canonical_key fs c.path == a.path)).elim false
          (fun c => decide (a = (Scanner._materialize fs cfg.name c).1)))
      = true := by
  constructor
  · rw [scan_artifacts_eq]
    exact scanLoop_nodup fs cfg.name _ _
      (by intro a ha; exact absurd ha (by simp)) (by simp)
  · rw [List.all_eq_true]
    intro a ha
    rw [scan_artifacts_eq] at ha
    rcases scanLoop_first_wins fs cfg.name _ _ a ha with h | ⟨c, hfind, _, hac⟩
    · exact absurd h (by simp)
    · rw [hfind]
      simpa using hac

/-! ## Theorems: the compact bundle-identifier token (C3) -/

/-- ASCII lower-case alphanumeric characters. -/
def isLowerAlnumChar (c : Char) : Bool :=
  (decide ('a' ≤ c) && decide (c ≤ 'z')) || c.isDigit

theorem toNat_ofNat_valid (n : Nat) (h : n.isValidChar) :
    (Char.ofNat n).toNat = n := by
  rw [Char.ofNat, dif_pos h]
  rfl

theorem isDigit_iff (d : Char) :
    d.isDigit = true ↔ (48 ≤ d.toNat ∧ d.toNat ≤ 57) := by
  rw [Char.isDigit, Bool.and_eq_true, decide_eq_true_eq, decide_eq_true_eq]
  exact Iff.rfl

theorem isUpper_iff (d : Char) :
    d.isUpper = true ↔ (65 ≤ d.toNat ∧ d.toNat ≤ 90) := by
  rw [Char.isUpper, Bool.and_eq_true, decide_eq_true_eq, decide_eq_true_eq]
  exact Iff.rfl

theorem isLower_iff (d : Char) :
    d.isLower = true ↔ (97 ≤ d.toNat ∧ d.toNat ≤ 122) := by
  rw [Char.isLower, Bool.and_eq_true, decide_eq_true_eq, decide_eq_true_eq]
  exact Iff.rfl

theorem le_a_iff (d : Char) : ('a' ≤ d) ↔ (97 ≤ d.toNat) := Iff.rfl

theorem le_z_iff (d : Char) : (d ≤ 'z') ↔ (d.toNat ≤ 122) := Iff.rfl

/-- Lower-casing an ASCII alphanumeric character yields an ASCII lower-case
alphanumeric character. -/
theorem toLower_alnum (c : Char) (h : c.isAlphanum = true) :
    isLowerAlnumChar c.toLower = true := by
  rw [Char.isAlphanum, Bool.or_eq_true, Char.isAlpha, Bool.or_eq_true] at h
  rw [Char.toLower]
  by_cases hU : c.toNat ≥ 65 ∧ c.toNat ≤ 90
  · rw [if_pos hU]
    have hv : (c.toNat + 32).isValidChar := Or.inl (by omega)
    have ht : (Char.ofNat (c.toNat + 32)).toNat = c.toNat + 32 :=
      toNat_ofNat_valid _ hv
    rw [isLowerAlnumChar, Bool.or_eq_true, Bool.and_eq_true,
      decide_eq_true_eq, decide_eq_true_eq]
    refine Or.inl ⟨?_, ?_⟩
    · rw [le_a_iff, ht]
      omega
    · rw [le_z_iff, ht]
      omega
  · rw [if_neg hU]
    rw [isLowerAlnumChar, Bool.or_eq_true, Bool.and_eq_true,
      decide_eq_true_eq, decide_eq_true_eq]
    rcases h with (hu | hl) | hd
    · exact absurd ((isUpper_iff c).mp hu) (by omega)
    · have := (isLower_iff c).mp hl
      exact Or.inl ⟨(le_a_iff c).mpr (by omega), (le_z_iff c).mpr (by omega)⟩
    · exact Or.inr hd

/-- A lower-case alphanumeric character is not whitespace. -/
theorem lowerAlnum_not_whitespace (c : Char) (h : isLowerAlnumChar c = true) :
    c.isWhitespace = false := by
  rw [isLowerAlnumChar, Bool.or_eq_true, Bool.and_eq_true,
    decide_eq_true_eq, decide_eq_true_eq] at h
  have hr : (97 ≤ c.toNat ∧ c.toNat ≤ 122) ∨ (48 ≤ c.toNat ∧ c.toNat ≤ 57) := by
    rcases h with ⟨h1, h2⟩ | hd
    · exact Or.inl ⟨(le_a_iff c).mp h1, (le_z_iff c).mp h2⟩
    · exact Or.inr ((isDigit_iff c).mp hd)
  rw [Char.isWhitespace]
  have hne : ∀ n : Nat, c.toNat ≠ n → ∀ d : Char, d.toNat = n → decide (c = d) = false := by
    intro n hn d hdn
    apply decide_eq_false
    intro hcd
    apply hn
    rw [hcd, hdn]
  rw [hne 32 (by omega) ' ' rfl, hne 9 (by omega) (Char.ofNat 9) rfl,
    hne 13 (by omega) (Char.ofNat 13) rfl, hne 10 (by omega) (Char.ofNat 10) rfl]
  rfl

theorem dropWhile_ws_eq_self (l : List Char)
    (h : ∀ c ∈ l, Char.isWhitespace c = false) :
    l.dropWhile Char.isWhitespace = l := by
  cases l with
  | nil => rfl
  | cons c t =>
    rw [List.dropWhile_cons, if_neg]
    rw [h c (List.mem_cons_self c t)]
    simp

/-- The `str.strip()` is the identity on strings without whitespace characters. -/
theorem pyStrip_eq_self (s : String)
    (h : ∀ c ∈ s.data, Char.isWhitespace c = false) : pyStrip s = s := by
  rw [pyStrip, dropWhile_ws_eq_self s.data h,
    dropWhile_ws_eq_self s.data.reverse
      (fun c hc => h c (List.mem_reverse.mp hc)),
    List.reverse_reverse]

theorem pyUniqueGo_mem_acc (vs : List String) (acc : List String) (x : String)
    (hx : x ∈ acc) : x ∈ pyUniqueGo vs acc := by
  induction vs generalizing acc with
  | nil => simpa [pyUniqueGo] using hx
  | cons v rest ih =>
    rw [pyUniqueGo]
    by_cases h0 : pyStrip v = ""
    · rw [if_pos h0]
      exact ih acc hx
    · rw [if_neg h0]
      by_cases h1 : acc.contains (pyStrip v) = true
      · rw [if_pos h1]
        exact ih acc hx
      · rw [if_neg h1]
        exact ih _ (List.mem_append_left _ hx)

/-- The first raw value survives `_unique` when it is clean and nonempty. -/
theorem unique_head_mem (v : String) (rest : List String)
    (hstrip : pyStrip v = v) (hne : v ≠ "") : v ∈ _unique (v :: rest) := by
  rw [_unique, pyUniqueGo, hstrip, if_neg hne, if_neg (by simp)]
  exact pyUniqueGo_mem_acc rest [v] v (by simp)

/-- C3 (amended): for every application name containing at least one ASCII
alphanumeric character, the compact bundle-identifier token consists of
lower-case ASCII alphanumerics only (no punctuation, no whitespace), and it
appears among the generated bundle-identifier candidates. -/
theorem c3_compact_lower_alnum (app_name : String)
    (h : app_name.data.any Char.isAlphanum = true) :
    (compactCandidate app_name).data.all isLowerAlnumChar = true
    ∧ compactCandidate app_name
        ∈ _bundle_candidates app_name (_name_candidates app_name) := by
  have hne : pyNormalized app_name ≠ "" := by
    intro hcontra
    rw [List.any_eq_true] at h
    obtain ⟨c, hc, hal⟩ := h
    have hmem : c ∈ (pyNormalized app_name).data := by
      simp only [pyNormalized]
      exact List.mem_filter.mpr ⟨hc, hal⟩
    rw [hcontra] at hmem
    exact absurd hmem (by simp)
  have hall : (compactCandidate app_name).data.all isLowerAlnumChar = true := by
    rw [compactCandidate, if_pos hne, List.all_eq_true]
    intro x hx
    simp only [pyLower, pyNormalized] at hx
    rcases List.mem_map.mp hx with ⟨y, hy, rfl⟩
    exact toLower_alnum y (List.mem_filter.mp hy).2
  refine ⟨hall, ?_⟩
  have hcne : compactCandidate app_name ≠ "" := by
    rw [compactCandidate, if_pos hne]
    intro hcontra
    apply hne
    cases hmk : pyNormalized app_name with
    | mk d =>
      rw [hmk] at hcontra
      simp only [pyLower] at hcontra
      have : d.map Char.toLower = [] := by
        have := congrArg String.data hcontra
        simpa using this
      rw [List.map_eq_nil_iff] at this
      rw [this]
  have hclean : pyStrip (compactCandidate app_name) = compactCandidate app_name := by
    apply pyStrip_eq_self
    intro c hc
    exact lowerAlnum_not_whitespace c
      ((List.all_eq_true.mp hall) c hc)
  rw [_bundle_candidates]
  have hmem : compactCandidate app_name
      ∈ _unique ([compactCandidate app_name,
          ⟨(pySlug app_name).data.map (fun c => if c = '-' then '.' else c)⟩,
          if compactCandidate app_name ≠ "" then "com." ++ compactCandidate app_name else ""]
        ++ (_name_candidates app_name).filter (fun c => pyStartsWith c "com.")
        ++ ((_name_candidates app_name).filter
              (fun c => !(c == "") && !(pyStartsWith c "com."))).map
            (fun c => "com." ++ c)) := by
    rw [List.cons_append, List.cons_append]
    exact unique_head_mem _ _ hclean hcne
  rw [if_neg (by intro hcontra; rw [hcontra] at hmem; exact absurd hmem (by simp))]
  exact hmem

/-- Witness for C3 (amended) at the concrete name `Visual Studio Code`. -/
theorem c3_compact_lower_alnum_witness :
    ("Visual Studio Code".data.any Char.isAlphanum = true)
    ∧ ((compactCandidate "Visual Studio Code").data.all isLowerAlnumChar = true
      ∧ compactCandidate "Visual Studio Code"
          ∈ _bundle_candidates "Visual Studio Code"
              (_name_candidates "Visual Studio Code")) :=
  ⟨by decide, c3_compact_lower_alnum "Visual Studio Code" (by decide)⟩

/-- Counterexample to C3 as stated: the application name `!!!` is non-empty,
is fed to the generator, and its compact bundle-identifier candidate is `!!!`
itself — pure punctuation, not lower-case alphanumeric. -/
theorem c3_counterexample :
    ¬(("!!!" : String) = "")
    ∧ compactCandidate "!!!" = "!!!"
    ∧ compactCandidate "!!!" ∈ _bundle_candidates "!!!" (_name_candidates "!!!")
    ∧ (compactCandidate "!!!").data.all isLowerAlnumChar = false := by
  refine ⟨by decide, by decide, by decide, by decide⟩

/-! ## Theorems: preferences candidates end in .plist (C6) -/

theorem pyEndsWith_append_self (s t : String) : pyEndsWith (s ++ t) t = true := by
  rw [pyEndsWith, List.isSuffixOf_iff_suffix, String.data_append]
  exact List.suffix_append _ _

theorem pyEndsWith_append_left (r s t : String) (h : pyEndsWith s t = true) :
    pyEndsWith (r ++ s) t = true := by
  rw [pyEndsWith, List.isSuffixOf_iff_suffix] at h ⊢
  rw [String.data_append]
  exact h.trans (List.suffix_append _ _)

theorem applicationSection_category (home : String) (bn at_ : List String)
    (c : ScanCandidate) (hc : c ∈ applicationSection home bn at_) :
    c.category = ArtifactCategory.application := by
  simp only [applicationSection, List.mem_flatMap, List.mem_append,
    List.mem_map, mkCandidate] at hc
  obtain ⟨rsn, -, (⟨b, -, rfl⟩ | ⟨t, -, rfl⟩)⟩ := hc <;> rfl

theorem sharedSection_category (at_ : List String)
    (c : ScanCandidate) (hc : c ∈ sharedSection at_) :
    c.category = ArtifactCategory.support := by
  simp only [sharedSection, List.mem_map, mkCandidate] at hc
  obtain ⟨t, -, rfl⟩ := hc
  rfl

theorem supportSection_category (home : String) (ns : List String)
    (c : ScanCandidate) (hc : c ∈ supportSection home ns) :
    c.category = ArtifactCategory.support := by
  simp only [supportSection, List.mem_flatMap, List.mem_map, mkCandidate] at hc
  obtain ⟨rsn, -, n, -, rfl⟩ := hc
  rfl

theorem launchSection_category (home : String) (ns : List String)
    (c : ScanCandidate) (hc : c ∈ launchSection home ns) :
    c.category = ArtifactCategory.launchAgent := by
  simp only [launchSection, List.mem_flatMap, List.mem_map, mkCandidate] at hc
  obtain ⟨rsn, -, n, -, rfl⟩ := hc
  rfl

theorem cacheSection_category (home : String) (ns : List String)
    (c : ScanCandidate) (hc : c ∈ cacheSection home ns) :
    c.category = ArtifactCategory.cache := by
  simp only [cacheSection, List.mem_flatMap, List.mem_map, mkCandidate] at hc
  obtain ⟨rsn, -, n, -, rfl⟩ := hc
  rfl

theorem logSection_category (home : String) (ns : List String)
    (c : ScanCandidate) (hc : c ∈ logSection home ns) :
    c.category = ArtifactCategory.logs := by
  simp only [logSection, List.mem_flatMap, List.mem_map, mkCandidate] at hc
  obtain ⟨rsn, -, n, -, rfl⟩ := hc
  rfl

theorem savedStateSection_category (home : String) (bs : List String)
    (c : ScanCandidate) (hc : c ∈ savedStateSection home bs) :
    c.category = ArtifactCategory.support := by
  simp only [savedStateSection, List.mem_flatMap, List.mem_map, mkCandidate] at hc
  obtain ⟨rsn, -, b, -, rfl⟩ := hc
  rfl

theorem containerSection_category (home : String) (bs : List String)
    (c : ScanCandidate) (hc : c ∈ containerSection home bs) :
    c.category = ArtifactCategory.support := by
  simp only [containerSection, List.mem_flatMap, List.mem_map, mkCandidate] at hc
  obtain ⟨rsn, -, b, -, rfl⟩ := hc
  rfl

/-- Every candidate built by the preferences block has a path ending in
`.plist`. -/
theorem preferencesSection_plist (home : String) (targets : List String)
    (c : ScanCandidate) (hc : c ∈ preferencesSection home targets) :
    pyEndsWith c.path ".plist" = true := by
  simp only [preferencesSection, List.mem_flatMap, List.mem_map, mkCandidate] at hc
  obtain ⟨rsn, -, t, -, rfl⟩ := hc
  apply pyEndsWith_append_left
  by_cases hd : pyEndsWith t ".plist" = true
  · rw [if_pos hd]
    exact hd
  · rw [if_neg hd]
    exact pyEndsWith_append_self t ".plist"

/-- C6 (amended): every preferences-category candidate built by the candidate
builder has a path ending in `.plist`; the final suffixing step appends
`.plist` only to targets that do not already end in it, but bundle targets are
pre-suffixed with `.plist` unconditionally, so a bundle candidate already
ending in `.plist` yields a `.plist.plist` filename (see the
counterexample). -/
theorem c6_preferences_end_plist (home app_name : String) :
    (_default_candidates home app_name).all
      (fun c => !(decide (c.category = ArtifactCategory.preferences))
        || pyEndsWith c.path ".plist") = true := by
  rw [List.all_eq_true]
  intro c hc
  simp only [_default_candidates, List.mem_append] at hc
  rcases hc with ((((((((h | h) | h) | h) | h) | h) | h) | h) | h)
  · simp [applicationSection_category _ _ _ _ h]
  · simp [sharedSection_category _ _ h]
  · simp [supportSection_category _ _ _ h]
  · simp [preferencesSection_plist _ _ _ h]
  · simp [launchSection_category _ _ _ h]
  · simp [cacheSection_category _ _ _ h]
  · simp [logSection_category _ _ _ h]
  · simp [savedStateSection_category _ _ _ h]
  · simp [containerSection_category _ _ _ h]

/-- Counterexample to C6 as stated: for the application name `Foo.plist` the
builder produces a preferences candidate whose filename ends in
`.plist.plist` (the bundle candidate `foo.plist` is unconditionally suffixed
to the target `foo.plist.plist`, which the conditional step then leaves
untouched). -/
theorem c6_counterexample :
    (_default_candidates "/h" "Foo.plist").any
      (fun c => decide (c.category = ArtifactCategory.preferences)
        && pyEndsWith c.path ".plist.plist") = true := by
  decide

/-! ## Theorems: deep home search cap and error collection (C8) -/

/-- Total number of walk entries (directory and file names) matching the
application name. -/
def deepTotalMatches (app_name : String) (walk : List WalkEvent) : Nat :=
  (walk.map (fun ev => match ev with
    | WalkEvent.visit _ dirnames filenames =>
      (dirnames.filter (deepMatch app_name)).length
        + (filenames.filter (deepMatch app_name)).length
    | WalkEvent.ioError _ _ => 0)).sum

/-- The formatted messages of all I/O error events of a walk, in order. -/
def walkIoMessages (walk : List WalkEvent) : List String :=
  walk.filterMap (fun ev => match ev with
    | WalkEvent.ioError filename strerror => some (deepIoMsg filename strerror)
    | WalkEvent.visit _ _ _ => none)

/-- Number of truncation messages in an error list. -/
def countTrunc (errors : List String) : Nat :=
  (errors.filter (fun e => e == deepTruncMsg)).length

theorem countTrunc_append (a b : List String) :
    countTrunc (a ++ b) = countTrunc a + countTrunc b := by
  simp [countTrunc, List.filter_append]

/-- An I/O error message is never the truncation message (their first words
differ). -/
theorem deepIoMsg_ne_trunc (fn msg : String) : deepIoMsg fn msg ≠ deepTruncMsg := by
  intro h
  have hd := congrArg (fun s => s.data.take 18) h
  simp only [deepIoMsg, deepTruncMsg, String.data_append, List.append_assoc] at hd
  rw [List.take_append_of_le_length (by decide)] at hd
  revert hd
  decide

theorem deepProcNames_cons (app root n : String) (rest : List String)
    (st : DeepState) :
    deepProcNames app root (n :: rest) st =
      if deepMatch app n then
        (if 500 ≤ st.match_count + 1 then
          { candidates := st.candidates ++ [deepCandidate root n],
            errors := st.errors ++ [deepTruncMsg],
            match_count := st.match_count + 1,
            truncated := true }
        else deepProcNames app root rest
          { st with candidates := st.candidates ++ [deepCandidate root n],
                    match_count := st.match_count + 1 })
      else deepProcNames app root rest st := rfl

theorem deepWalkLoop_cons_trunc (app : String) (ev : WalkEvent)
    (rest : List WalkEvent) (st : DeepState) (h : st.truncated = true) :
    deepWalkLoop app (ev :: rest) st = st := by
  cases ev <;> rw [deepWalkLoop, h] <;> simp

theorem deepWalkLoop_cons_io (app fn m : String) (rest : List WalkEvent)
    (st : DeepState) (h : st.truncated = false) :
    deepWalkLoop app (WalkEvent.ioError fn m :: rest) st
      = deepWalkLoop app rest { st with errors := st.errors ++ [deepIoMsg fn m] } := by
  rw [deepWalkLoop, h]
  simp

theorem deepWalkLoop_cons_visit (app root : String) (ds fls : List String)
    (rest : List WalkEvent) (st : DeepState) (h : st.truncated = false) :
    deepWalkLoop app (WalkEvent.visit root ds fls :: rest) st
      = deepWalkLoop app rest
          (if (deepProcNames app root ds st).truncated then
            deepProcNames app root ds st
          else deepProcNames app root fls (deepProcNames app root ds st)) := by
  rw [deepWalkLoop, h]
  simp

theorem deepTotalMatches_cons_io (app fn m : String) (rest : List WalkEvent) :
    deepTotalMatches app (WalkEvent.ioError fn m :: rest)
      = deepTotalMatches app rest := by
  simp [deepTotalMatches]

theorem deepTotalMatches_cons_visit (app root : String) (ds fls : List String)
    (rest : List WalkEvent) :
    deepTotalMatches app (WalkEvent.visit root ds fls :: rest)
      = (ds.filter (deepMatch app)).length + (fls.filter (deepMatch app)).length
        + deepTotalMatches app rest := by
  simp [deepTotalMatches]

/-- Loop invariant of the deep home search: the candidate count equals the
match counter, the counter never passes 500, it stays strictly below 500
until truncation, and the truncation message has been recorded exactly once
iff the truncated flag is set. -/
def DeepInv (st : DeepState) : Prop :=
  st.candidates.length = st.match_count
  ∧ st.match_count ≤ 500
  ∧ (st.truncated = false → st.match_count < 500)
  ∧ countTrunc st.errors = (if st.truncated then 1 else 0)

theorem deepProcNames_inv (app root : String) (ns : List String)
    (st : DeepState) (htr : st.truncated = false) (hinv : DeepInv st) :
    DeepInv (deepProcNames app root ns st) := by
  induction ns generalizing st with
  | nil => simpa [deepProcNames] using hinv
  | cons n rest ih =>
    rw [deepProcNames_cons]
    obtain ⟨h1, h2, h3, h4⟩ := hinv
    by_cases hm : deepMatch app n = true
    · rw [if_pos hm]
      by_cases hcap : 500 ≤ st.match_count + 1
      · rw [if_pos hcap]
        have hcnt : countTrunc (st.errors ++ [deepTruncMsg]) = 1 := by
          rw [countTrunc_append, h4, htr]
          decide
        refine ⟨?_, ?_, ?_, ?_⟩
        · dsimp only
          simp [h1]
        · dsimp only
          have := h3 htr
          omega
        · dsimp only
          intro hcontra
          exact absurd hcontra (by simp)
        · dsimp only
          simp [hcnt]
      · rw [if_neg hcap]
        apply ih
        · exact htr
        · refine ⟨?_, ?_, ?_, ?_⟩
          · dsimp only
            simp [h1]
          · dsimp only
            omega
          · dsimp only
            intro _
            omega
          · dsimp only
            rw [htr] at h4 ⊢
            exact h4
    · rw [if_neg hm]
      exact ih st htr ⟨h1, h2, h3, h4⟩

theorem deepWalkLoop_inv (app : String) (walk : List WalkEvent)
    (st : DeepState) (hinv : DeepInv st) : DeepInv (deepWalkLoop app walk st) := by
  induction walk generalizing st with
  | nil => simpa [deepWalkLoop] using hinv
  | cons ev rest ih =>
    by_cases htr : st.truncated = true
    · rw [deepWalkLoop_cons_trunc app ev rest st htr]
      exact hinv
    · have htr' : st.truncated = false := Bool.eq_false_iff.mpr htr
      cases ev with
      | ioError fn m =>
        rw [deepWalkLoop_cons_io app fn m rest st htr']
        apply ih
        obtain ⟨h1, h2, h3, h4⟩ := hinv
        refine ⟨h1, h2, h3, ?_⟩
        dsimp only
        rw [countTrunc_append, h4]
        have h0 : countTrunc [deepIoMsg fn m] = 0 := by
          simp [countTrunc, deepIoMsg_ne_trunc fn m]
        rw [h0, Nat.add_zero]
      | visit root ds fls =>
        rw [deepWalkLoop_cons_visit app root ds fls rest st htr']
        have hst1 := deepProcNames_inv app root ds st htr' hinv
        by_cases ht1 : (deepProcNames app root ds st).truncated = true
        · rw [if_pos ht1]
          exact ih _ hst1
        · rw [if_neg ht1]
          exact ih _ (deepProcNames_inv app root fls _
            (Bool.eq_false_iff.mpr ht1) hst1)

/-- If the inner loop finishes untruncated, the input was untruncated, the
counter advanced by the number of matches, and the errors are untouched. -/
theorem deepProcNames_count (app root : String) (ns : List String)
    (st : DeepState) (h : (deepProcNames app root ns st).truncated = false) :
    st.truncated = false
    ∧ (deepProcNames app root ns st).match_count
        = st.match_count + (ns.filter (deepMatch app)).length
    ∧ (deepProcNames app root ns st).errors = st.errors := by
  induction ns generalizing st with
  | nil =>
    refine ⟨by simpa [deepProcNames] using h, ?_, by simp [deepProcNames]⟩
    simp [deepProcNames]
  | cons n rest ih =>
    rw [deepProcNames_cons] at h ⊢
    by_cases hm : deepMatch app n = true
    · rw [if_pos hm] at h ⊢
      by_cases hcap : 500 ≤ st.match_count + 1
      · rw [if_pos hcap] at h
        exact absurd h (by simp)
      · rw [if_neg hcap] at h ⊢
        obtain ⟨ht1, hc1, he1⟩ := ih _ h
        refine ⟨by simpa using ht1, ?_, by simpa using he1⟩
        rw [hc1]
        dsimp only
        rw [List.filter_cons_of_pos hm]
        simp
        omega
    · rw [if_neg hm] at h ⊢
      obtain ⟨ht1, hc1, he1⟩ := ih _ h
      refine ⟨ht1, ?_, he1⟩
      rw [hc1, List.filter_cons_of_neg (by simp [hm])]

/-- If the walk finishes untruncated, every match in the walk was counted. -/
theorem deepWalkLoop_count (app : String) (walk : List WalkEvent)
    (st : DeepState) (h : (deepWalkLoop app walk st).truncated = false) :
    st.truncated = false
    ∧ (deepWalkLoop app walk st).match_count
        = st.match_count + deepTotalMatches app walk := by
  induction walk generalizing st with
  | nil =>
    refine ⟨by simpa [deepWalkLoop] using h, ?_⟩
    simp [deepWalkLoop, deepTotalMatches]
  | cons ev rest ih =>
    by_cases htr : st.truncated = true
    · rw [deepWalkLoop_cons_trunc app ev rest st htr] at h
      exact absurd h (by simp [htr])
    · have htr' : st.truncated = false := Bool.eq_false_iff.mpr htr
      cases ev with
      | ioError fn m =>
        rw [deepWalkLoop_cons_io app fn m rest st htr'] at h ⊢
        obtain ⟨-, hc⟩ := ih _ h
        refine ⟨htr', ?_⟩
        rw [hc, deepTotalMatches_cons_io]
      | visit root ds fls =>
        rw [deepWalkLoop_cons_visit app root ds fls rest st htr'] at h ⊢
        by_cases ht1 : (deepProcNames app root ds st).truncated = true
        · rw [if_pos ht1] at h ⊢
          obtain ⟨ht2, -⟩ := ih _ h
          exact absurd ht1 (by simp [ht2])
        · rw [if_neg ht1] at h ⊢
          obtain ⟨ht2, hc2⟩ := ih _ h
          obtain ⟨-, hcf, -⟩ := deepProcNames_count app root fls _ ht2
          obtain ⟨-, hcd, -⟩ := deepProcNames_count app root ds st
            (Bool.eq_false_iff.mpr ht1)
          refine ⟨htr', ?_⟩
          rw [hc2, hcf, hcd, deepTotalMatches_cons_visit]
          omega

/-- If the inner loop cannot reach the cap, it leaves the errors and the
truncated flag alone and just counts matches. -/
theorem deepProcNames_small (app root : String) (ns : List String)
    (st : DeepState) (htr : st.truncated = false)
    (hsmall : st.match_count + (ns.filter (deepMatch app)).length < 500) :
    (deepProcNames app root ns st).errors = st.errors
    ∧ (deepProcNames app root ns st).truncated = false
    ∧ (deepProcNames app root ns st).match_count
        = st.match_count + (ns.filter (deepMatch app)).length := by
  induction ns generalizing st with
  | nil => exact ⟨by simp [deepProcNames], by simp [deepProcNames, htr], by simp [deepProcNames]⟩
  | cons n rest ih =>
    rw [deepProcNames_cons]
    by_cases hm : deepMatch app n = true
    · rw [if_pos hm]
      rw [List.filter_cons_of_pos hm] at hsmall
      simp only [List.length_cons] at hsmall
      rw [if_neg (by omega)]
      obtain ⟨he, ht, hc⟩ := ih
        { st with candidates := st.candidates ++ [deepCandidate root n],
                  match_count := st.match_count + 1 }
        htr (by dsimp only; omega)
      refine ⟨by simpa using he, ht, ?_⟩
      rw [hc]
      dsimp only
      rw [List.filter_cons_of_pos hm]
      simp
      omega
    · rw [if_neg hm]
      rw [List.filter_cons_of_neg (by simp [hm])] at hsmall
      obtain ⟨he, ht, hc⟩ := ih st htr hsmall
      exact ⟨he, ht, by rw [hc, List.filter_cons_of_neg (by simp [hm])]⟩

/-- If fewer than 500 entries match in the whole walk, the search is never
truncated and its error list is exactly the ordered list of formatted I/O
error messages. -/
theorem deepWalkLoop_small (app : String) (walk : List WalkEvent)
    (st : DeepState) (htr : st.truncated = false)
    (hsmall : st.match_count + deepTotalMatches app walk < 500) :
    (deepWalkLoop app walk st).errors = st.errors ++ walkIoMessages walk
    ∧ (deepWalkLoop app walk st).truncated = false
    ∧ (deepWalkLoop app walk st).match_count
        = st.match_count + deepTotalMatches app walk := by
  induction walk generalizing st with
  | nil =>
    refine ⟨by simp [deepWalkLoop, walkIoMessages], by simpa [deepWalkLoop] using htr, ?_⟩
    simp [deepWalkLoop, deepTotalMatches]
  | cons ev rest ih =>
    cases ev with
    | ioError fn m =>
      rw [deepWalkLoop_cons_io app fn m rest st htr]
      rw [deepTotalMatches_cons_io] at hsmall
      obtain ⟨he, ht, hc⟩ := ih { st with errors := st.errors ++ [deepIoMsg fn m] }
        htr (by dsimp only; omega)
      refine ⟨?_, ht, by rw [hc]; dsimp only; rw [deepTotalMatches_cons_io]⟩
      rw [he]
      dsimp only
      simp [walkIoMessages, List.filterMap_cons]
    | visit root ds fls =>
      rw [deepWalkLoop_cons_visit app root ds fls rest st htr]
      rw [deepTotalMatches_cons_visit] at hsmall
      obtain ⟨hed, htd, hcd⟩ := deepProcNames_small app root ds st htr (by omega)
      obtain ⟨hef, htf, hcf⟩ := deepProcNames_small app root fls _ htd (by omega)
      rw [if_neg (by simp [htd])]
      obtain ⟨he, ht, hc⟩ := ih (deepProcNames app root fls (deepProcNames app root ds st))
        htf (by rw [hcf, hcd]; omega)
      refine ⟨?_, ht, ?_⟩
      · rw [he, hef, hed]
        simp [walkIoMessages, List.filterMap_cons]
      · rw [hc, hcf, hcd, deepTotalMatches_cons_visit]
        omega

/-- C8: the deep home search contributes at most 500 candidates; if more than
500 entries match, exactly one truncation error message is recorded; and if
fewer than 500 match, the walk is never truncated and the error list is
exactly the collected (non-raised) I/O error messages, in order. -/
theorem c8_deep_home_cap (walk : List WalkEvent) (app_name : String) :
    (_deep_home_candidates walk app_name).1.length ≤ 500
    ∧ (500 < deepTotalMatches app_name walk →
        countTrunc (_deep_home_candidates walk app_name).2 = 1)
    ∧ (deepTotalMatches app_name walk < 500 →
        (_deep_home_candidates walk app_name).2 = walkIoMessages walk) := by
  have hinv0 : DeepInv ⟨[], [], 0, false⟩ :=
    ⟨rfl, by decide, fun _ => by decide, by decide⟩
  obtain ⟨h1, h2, h3, h4⟩ := deepWalkLoop_inv app_name walk _ hinv0
  refine ⟨?_, ?_, ?_⟩
  · dsimp only [_deep_home_candidates]
    omega
  · intro hbig
    dsimp only [_deep_home_candidates]
    by_cases ht : (deepWalkLoop app_name walk ⟨[], [], 0, false⟩).truncated = true
    · rw [h4, ht]
      simp
    · obtain ⟨-, hc⟩ := deepWalkLoop_count app_name walk _ (Bool.eq_false_iff.mpr ht)
      dsimp only at hc
      omega
  · intro hsmall
    dsimp only [_deep_home_candidates]
    obtain ⟨he, -, -⟩ := deepWalkLoop_small app_name walk ⟨[], [], 0, false⟩ rfl
      (by simpa using hsmall)
    rw [he]
    simp

set_option maxRecDepth 40000 in
/-- Witness for C8 at two concrete walks: one with 501 matching directory
entries (truncation case) and one with a single match plus an I/O error
(collection case). -/
theorem c8_deep_home_cap_witness :
    (500 < deepTotalMatches "a" [WalkEvent.visit "/h" (List.replicate 501 "a") []]
      ∧ countTrunc
          (_deep_home_candidates [WalkEvent.visit "/h" (List.replicate 501 "a") []]
            "a").2 = 1)
    ∧ (deepTotalMatches "app"
          [WalkEvent.ioError "/h/x" "Permission denied",
           WalkEvent.visit "/h" ["app"] []] < 500
      ∧ (_deep_home_candidates
            [WalkEvent.ioError "/h/x" "Permission denied",
             WalkEvent.visit "/h" ["app"] []] "app").2
          = walkIoMessages
              [WalkEvent.ioError "/h/x" "Permission denied",
               WalkEvent.visit "/h" ["app"] []]) :=
  ⟨⟨by decide,
    (c8_deep_home_cap [WalkEvent.visit "/h" (List.replicate 501 "a") []] "a").2.1
      (by decide)⟩,
   ⟨by decide,
    (c8_deep_home_cap
        [WalkEvent.ioError "/h/x" "Permission denied",
         WalkEvent.visit "/h" ["app"] []] "app").2.2 (by decide)⟩⟩

end AppHound
